import Mathlib

/-!
# Response adapter (`pkg/http/http.go`)

A shallow embedding of the adapter between typed handlers and the HTTP stack:
the `Response` constructors, `converter` / `writeResponse` on the server side,
`ExtractPayload` on the client side and `ReadUserIP`.

Conventions of the embedding:

* Go `string` and `[]byte` values whose bytes matter (messages, bodies,
  payload strings) are `GoString`s, lists of bytes (numbers below 256) that
  need not be valid UTF-8. Header names and values, which the adapter only compares with the
  empty string and hands on, and the texts inside a parsed JSON value, which
  `encoding/json` has made valid UTF-8, are Lean `String`s.
* a Go `error` is a `GoError`; a possibly-nil `error` is an `Option GoError`.
* the functions of the Go standard library that the adapter calls
  (`json.Marshal`, `json.Unmarshal`, `http.Error`, the `http.ResponseWriter`
  methods, `Header.Get`, `io.ReadAll`) are embedded as executable definitions
  that follow their documented behaviour.
-/

namespace HttpAdapter

/-! ## Go strings -/

/-- A Go `string` or `[]byte`: its bytes, numbers below 256. -/
abbrev GoString := List Nat

/-- The UTF-8 encoding of a character (`utf8.EncodeRune`). -/
def utf8Char (c : Char) : List Nat :=
  if c.toNat < 0x80 then [c.toNat]
  else if c.toNat < 0x800 then [0xc0 + c.toNat / 64, 0x80 + c.toNat % 64]
  else if c.toNat < 0x10000 then
    [0xe0 + c.toNat / 4096, 0x80 + c.toNat / 64 % 64, 0x80 + c.toNat % 64]
  else
    [0xf0 + c.toNat / 262144, 0x80 + c.toNat / 4096 % 64, 0x80 + c.toNat / 64 % 64,
      0x80 + c.toNat % 64]

/-- The UTF-8 encoding of a list of characters. -/
def utf8Chars : List Char → GoString
  | [] => []
  | c :: cs => utf8Char c ++ utf8Chars cs

/-- The Go string with the text `s`: the bytes of its UTF-8 encoding. -/
def utf8 (s : String) : GoString := utf8Chars s.data

/-- What one step of decoding a Go string yields: a rune whose encoding was
read, or one byte that does not begin a well-formed encoding (for which Go
reports `utf8.RuneError` with width 1). -/
inductive GoRune
  | rune (c : Char)
  | invalid (b : Nat)
  deriving DecidableEq

/-- A continuation byte of UTF-8. -/
def isCont (b : Nat) : Bool := 0x80 ≤ b && b ≤ 0xbf

/-- The function `utf8.DecodeRune` on the bytes `b0 :: rest`: the rune and the
number of bytes it takes. The second byte of an encoding has a range that
depends on the first, which excludes overlong forms, surrogates and values
above U+10FFFF. -/
def decodeRune (b0 : Nat) (rest : List Nat) : GoRune × Nat :=
  if b0 < 0x80 then (.rune (Char.ofNat b0), 1)
  else if b0 < 0xc2 then (.invalid b0, 1)
  else if b0 < 0xe0 then
    match rest with
    | b1 :: _ =>
      if isCont b1 then (.rune (Char.ofNat ((b0 - 0xc0) * 64 + (b1 - 0x80))), 2)
      else (.invalid b0, 1)
    | _ => (.invalid b0, 1)
  else if b0 < 0xf0 then
    match rest with
    | b1 :: b2 :: _ =>
      if (if b0 = 0xe0 then 0xa0 else 0x80) ≤ b1 ∧ b1 ≤ (if b0 = 0xed then 0x9f else 0xbf) ∧
          isCont b2 then
        (.rune (Char.ofNat ((b0 - 0xe0) * 4096 + (b1 - 0x80) * 64 + (b2 - 0x80))), 3)
      else (.invalid b0, 1)
    | _ => (.invalid b0, 1)
  else if b0 < 0xf5 then
    match rest with
    | b1 :: b2 :: b3 :: _ =>
      if (if b0 = 0xf0 then 0x90 else 0x80) ≤ b1 ∧ b1 ≤ (if b0 = 0xf4 then 0x8f else 0xbf) ∧
          isCont b2 ∧ isCont b3 then
        (.rune (Char.ofNat ((b0 - 0xf0) * 262144 + (b1 - 0x80) * 4096 + (b2 - 0x80) * 64 +
          (b3 - 0x80))), 4)
      else (.invalid b0, 1)
    | _ => (.invalid b0, 1)
  else (.invalid b0, 1)

/-- The runes of a byte string, after skipping the given number of bytes,
which belong to the rune read last. -/
def decodeRunesFrom : Nat → List Nat → List GoRune
  | _, [] => []
  | k + 1, _ :: rest => decodeRunesFrom k rest
  | 0, b0 :: rest =>
    (decodeRune b0 rest).1 :: decodeRunesFrom ((decodeRune b0 rest).2 - 1) rest

/-- The runes of a Go string, as a `range` loop or repeated
`utf8.DecodeRune` yields them. -/
def decodeRunes (s : GoString) : List GoRune := decodeRunesFrom 0 s

/-- The rune U+FFFD that stands for what could not be decoded. -/
def replacementChar : Char := Char.ofNat 0xfffd

/-- The character that `encoding/json` reads or writes for a decoded rune:
an invalid byte becomes U+FFFD. -/
def GoRune.toChar : GoRune → Char
  | .rune c => c
  | .invalid _ => replacementChar

/-- A byte string as the text that the scanner of `encoding/json` works on:
bytes that are not valid UTF-8 count as U+FFFD each, which is what a string
literal keeps of them and is no character of the syntax elsewhere. -/
def toValidUTF8 (s : GoString) : String :=
  String.mk ((decodeRunes s).map GoRune.toChar)

/-! ## Errors -/

/-- Go `error` values that occur in the adapter: errors made by the caller
(`errors.New`) and the three error types of `encoding/json` that `Marshal` and
`Unmarshal` return. -/
inductive GoError
  | errorString (s : GoString)
  | SyntaxError (msg : String)
  | UnmarshalTypeError (value : String) (goType : String) (field : String)
  | UnsupportedTypeError (goType : String)
  deriving DecidableEq

/-- The method `Error() string` of the `error` interface. -/
def GoError.Error : GoError → GoString
  | .errorString s => s
  | .SyntaxError msg => utf8 msg
  | .UnmarshalTypeError value goType field =>
      if field = "" then
        utf8 ("json: cannot unmarshal " ++ value ++ " into Go value of type " ++ goType)
      else
        utf8 ("json: cannot unmarshal " ++ value ++ " into Go struct field " ++ field ++
          " of type " ++ goType)
  | .UnsupportedTypeError goType => utf8 ("json: unsupported type: " ++ goType)

/-! ## `encoding/json`: the text format -/

/-- A parsed JSON text. Numbers keep their literal text. -/
inductive JSON
  | null
  | bool (b : Bool)
  | number (lit : String)
  | string (s : String)
  | array (elems : List JSON)
  | object (members : List (String × JSON))

/-- The name `encoding/json` uses for the kind of a JSON value in an
`UnmarshalTypeError`. -/
def JSON.kind : JSON → String
  | .null => "null"
  | .bool _ => "bool"
  | .number _ => "number"
  | .string _ => "string"
  | .array _ => "array"
  | .object _ => "object"

/-- Lower-case hexadecimal digit of a number below 16. -/
def hexDigit (n : Nat) : Char :=
  if n < 10 then Char.ofNat (48 + n) else Char.ofNat (87 + n)

/-- Value of a hexadecimal digit, either case. -/
def hexVal (c : Char) : Option Nat :=
  if '0' ≤ c ∧ c ≤ '9' then some (c.toNat - 48)
  else if 'a' ≤ c ∧ c ≤ 'f' then some (c.toNat - 87)
  else if 'A' ≤ c ∧ c ≤ 'F' then some (c.toNat - 55)
  else none

/-- The encoding of one character inside a JSON string literal, as
`json.Marshal` writes it (HTML escaping on): quote and backslash are
backslash-escaped, the control characters have their short or `\u00XX` form,
`<`, `>`, `&` and U+2028, U+2029 are written as `\uXXXX`, every other character
is copied. (Backspace and form feed have the short form since Go 1.22; before,
they were written `\u0008` and `\u000c`, which scan to the same characters.) -/
def appendChar (c : Char) : List Char :=
  if c = '\\' ∨ c = '"' then ['\\', c]
  else if c = '\x08' then ['\\', 'b']
  else if c = '\x0c' then ['\\', 'f']
  else if c = '\n' then ['\\', 'n']
  else if c = '\r' then ['\\', 'r']
  else if c = '\t' then ['\\', 't']
  else if c.toNat < 32 ∨ c = '<' ∨ c = '>' ∨ c = '&' then
    ['\\', 'u', '0', '0', hexDigit (c.toNat / 16), hexDigit (c.toNat % 16)]
  else if c.toNat = 0x2028 ∨ c.toNat = 0x2029 then
    ['\\', 'u', '2', '0', '2', hexDigit (c.toNat % 16)]
  else [c]

/-- The encoding of one decoded rune inside a JSON string literal: a byte that
is not valid UTF-8 is written as the escape `\ufffd`. -/
def escapeRune : GoRune → List Char
  | .rune c => appendChar c
  | .invalid _ => ['\\', 'u', 'f', 'f', 'f', 'd']

/-- The runes of a string, each encoded by `escapeRune`. -/
def escapeRunes : List GoRune → List Char
  | [] => []
  | r :: rs => escapeRune r ++ escapeRunes rs

/-- The JSON string literal for the Go string `s` (`appendString` of
`encoding/json`), as text. -/
def appendString (s : GoString) : List Char :=
  '"' :: (escapeRunes (decodeRunes s) ++ ['"'])

/-- JSON whitespace: space, tab, carriage return, line feed. -/
def isSpace (c : Char) : Bool :=
  c = ' ' || c = '\t' || c = '\r' || c = '\n'

/-- Drops leading JSON whitespace. -/
def skipSpace : List Char → List Char
  | [] => []
  | c :: cs => if isSpace c then skipSpace cs else c :: cs

/-- The code unit written as four hexadecimal digits, if they are digits. -/
def getu4 (a b c d : Char) : Option Nat :=
  match hexVal a, hexVal b, hexVal c, hexVal d with
  | some x, some y, some z, some w => some (((x * 16 + y) * 16 + z) * 16 + w)
  | _, _, _, _ => none

/-- What a string literal contributes before surrogate pairs are combined:
a character, or the code unit of a `\uXXXX` escape in the surrogate range. -/
inductive Unit16
  | char (c : Char)
  | surrogate (r : Nat)

/-- Combines the surrogate pairs of a decoded literal (`utf16.DecodeRune` in
`unquote`): a high surrogate directly followed by a low one is their code
point, any other surrogate is U+FFFD. `pending` is a high surrogate that was
just read. -/
def combineSurrogates : Option Nat → List Unit16 → List Char
  | none, [] => []
  | some _, [] => [replacementChar]
  | none, .char c :: rest => c :: combineSurrogates none rest
  | some _, .char c :: rest => replacementChar :: c :: combineSurrogates none rest
  | none, .surrogate r :: rest =>
    if r < 0xdc00 then combineSurrogates (some r) rest
    else replacementChar :: combineSurrogates none rest
  | some h, .surrogate r :: rest =>
    if 0xdc00 ≤ r then
      Char.ofNat ((h - 0xd800) * 1024 + (r - 0xdc00) + 0x10000) :: combineSurrogates none rest
    else replacementChar :: combineSurrogates (some r) rest

/-- The item for the code unit of a `\uXXXX` escape. -/
def unitOfEscape (r : Nat) : Unit16 :=
  if 0xd800 ≤ r ∧ r < 0xe000 then .surrogate r else .char (Char.ofNat r)

/-- A syntax error of the scanner. The message names the place only; the
offending character and the offset of Go's message are left out. -/
def errInvalidChar (context : String) : GoError :=
  .SyntaxError ("invalid character " ++ context)

/-- The syntax error for an input that ends inside a value. -/
def errUnexpectedEnd : GoError := .SyntaxError "unexpected end of JSON input"

/-- Reads the rest of a string literal, after its opening quote. The items
decoded so far are `acc`; the result is the decoded string and the input that
follows the closing quote. Characters below U+0020 must be escaped. -/
def scanString : List Char → List Unit16 → Except GoError (String × List Char)
  | [], _ => .error errUnexpectedEnd
  | c :: rest, acc =>
    if c = '"' then .ok (String.mk (combineSurrogates none acc), rest)
    else if c = '\\' then
      match rest with
      | [] => .error errUnexpectedEnd
      | 'u' :: a :: b :: x :: y :: rest2 =>
        match getu4 a b x y with
        | none => .error (errInvalidChar "in \\u hexadecimal character escape")
        | some r => scanString rest2 (acc ++ [unitOfEscape r])
      | 'u' :: _ => .error (errInvalidChar "in \\u hexadecimal character escape")
      | e :: rest2 =>
        if e = '"' ∨ e = '\\' ∨ e = '/' then scanString rest2 (acc ++ [.char e])
        else if e = 'b' then scanString rest2 (acc ++ [.char '\x08'])
        else if e = 'f' then scanString rest2 (acc ++ [.char '\x0c'])
        else if e = 'n' then scanString rest2 (acc ++ [.char '\n'])
        else if e = 'r' then scanString rest2 (acc ++ [.char '\r'])
        else if e = 't' then scanString rest2 (acc ++ [.char '\t'])
        else .error (errInvalidChar "in string escape code")
    else if c.toNat < 32 then .error (errInvalidChar "in string literal")
    else scanString rest (acc ++ [.char c])

/-- The longest prefix of decimal digits, and what follows it. -/
def takeDigits : List Char → List Char × List Char
  | [] => ([], [])
  | c :: cs =>
    if c.isDigit then ((c :: (takeDigits cs).1), (takeDigits cs).2) else ([], c :: cs)

/-- The optional fraction of a number: a point and at least one digit. -/
def scanFrac : List Char → Except GoError (List Char × List Char)
  | '.' :: rest =>
    match takeDigits rest with
    | ([], []) => .error errUnexpectedEnd
    | ([], _) => .error (errInvalidChar "after decimal point in numeric literal")
    | (ds, rest2) => .ok ('.' :: ds, rest2)
  | cs => .ok ([], cs)

/-- The digits of an exponent, at least one. -/
def scanExpDigits (mark : List Char) (rest : List Char) :
    Except GoError (List Char × List Char) :=
  match takeDigits rest with
  | ([], []) => .error errUnexpectedEnd
  | ([], _) => .error (errInvalidChar "in exponent of numeric literal")
  | (ds, rest2) => .ok (mark ++ ds, rest2)

/-- The optional exponent of a number: `e` or `E`, an optional sign, digits. -/
def scanExp : List Char → Except GoError (List Char × List Char)
  | [] => .ok ([], [])
  | c :: rest =>
    if c = 'e' ∨ c = 'E' then
      match rest with
      | s :: rest2 =>
        if s = '+' ∨ s = '-' then scanExpDigits [c, s] rest2 else scanExpDigits [c] rest
      | [] => .error errUnexpectedEnd
    else .ok ([], c :: rest)

/-- The integer part of a number: `0`, or a non-zero digit and more digits. -/
def scanInt : List Char → Except GoError (List Char × List Char)
  | [] => .error errUnexpectedEnd
  | d :: rest =>
    if d = '0' then .ok ([d], rest)
    else if d.isDigit then .ok (d :: (takeDigits rest).1, (takeDigits rest).2)
    else .error (errInvalidChar "in numeric literal")

/-- Reads a number literal; the result is its text and the input after it. -/
def scanNumber (cs : List Char) : Except GoError (String × List Char) :=
  let sign : List Char := match cs with
    | '-' :: _ => ['-']
    | _ => []
  let body : List Char := match cs with
    | '-' :: rest => rest
    | _ => cs
  match scanInt body with
  | .error e => .error e
  | .ok (ip, r1) =>
    match scanFrac r1 with
    | .error e => .error e
    | .ok (fp, r2) =>
      match scanExp r2 with
      | .error e => .error e
      | .ok (ep, r3) => .ok (String.mk (sign ++ ip ++ fp ++ ep), r3)

/-- Reads the rest of one of the literals `true`, `false`, `null`, whose first
character has been read; `word` is what must follow. -/
def scanLiteral (word : List Char) (v : JSON) (name : String) (cs : List Char) :
    Except GoError (JSON × List Char) :=
  if word.isPrefixOf cs then .ok (v, cs.drop word.length)
  else if cs.length < word.length ∧ cs.isPrefixOf word then .error errUnexpectedEnd
  else .error (errInvalidChar ("in literal " ++ name))

/-- The nesting depth beyond which the scanner of `encoding/json` gives up. -/
def maxNestingDepth : Nat := 10000

mutual

/-- Reads one JSON value, after optional whitespace. `depth` is the number of
arrays and objects that are open. The first argument bounds the number of
nested calls; `parseText` starts it above twice the length of the input, which
the calls never use up. -/
def scanValue : Nat → Nat → List Char → Except GoError (JSON × List Char)
  | 0, _, _ => .error errUnexpectedEnd
  | n + 1, depth, cs =>
    match skipSpace cs with
    | [] => .error errUnexpectedEnd
    | c :: rest =>
      if c = '"' then
        match scanString rest [] with
        | .error e => .error e
        | .ok (s, rest2) => .ok (.string s, rest2)
      else if c = '\x7b' then
        if maxNestingDepth < depth + 1 then .error (.SyntaxError "exceeded max depth")
        else
          match skipSpace rest with
          | '\x7d' :: rest2 => .ok (.object [], rest2)
          | _ => scanMembers n (depth + 1) rest []
      else if c = '[' then
        if maxNestingDepth < depth + 1 then .error (.SyntaxError "exceeded max depth")
        else
          match skipSpace rest with
          | ']' :: rest2 => .ok (.array [], rest2)
          | _ => scanElems n (depth + 1) rest []
      else if c = 't' then scanLiteral ['r', 'u', 'e'] (.bool true) "true" rest
      else if c = 'f' then scanLiteral ['a', 'l', 's', 'e'] (.bool false) "false" rest
      else if c = 'n' then scanLiteral ['u', 'l', 'l'] .null "null" rest
      else if c = '-' ∨ c.isDigit then
        match scanNumber (c :: rest) with
        | .error e => .error e
        | .ok (lit, rest2) => .ok (.number lit, rest2)
      else .error (errInvalidChar "looking for beginning of value")

/-- Reads the elements of an array after `[`, up to and including `]`. -/
def scanElems : Nat → Nat → List Char → List JSON → Except GoError (JSON × List Char)
  | 0, _, _, _ => .error errUnexpectedEnd
  | n + 1, depth, cs, acc =>
    match scanValue n depth cs with
    | .error e => .error e
    | .ok (v, rest) =>
      match skipSpace rest with
      | [] => .error errUnexpectedEnd
      | c :: rest2 =>
        if c = ',' then scanElems n depth rest2 (acc ++ [v])
        else if c = ']' then .ok (.array (acc ++ [v]), rest2)
        else .error (errInvalidChar "after array element")

/-- Reads the members of an object after the opening brace, up to and
including the closing brace. -/
def scanMembers :
    Nat → Nat → List Char → List (String × JSON) → Except GoError (JSON × List Char)
  | 0, _, _, _ => .error errUnexpectedEnd
  | n + 1, depth, cs, acc =>
    match skipSpace cs with
    | [] => .error errUnexpectedEnd
    | q :: rest =>
      if q = '"' then
        match scanString rest [] with
        | .error e => .error e
        | .ok (key, rest2) =>
          match skipSpace rest2 with
          | [] => .error errUnexpectedEnd
          | colon :: rest3 =>
            if colon = ':' then
              match scanValue n depth rest3 with
              | .error e => .error e
              | .ok (v, rest4) =>
                match skipSpace rest4 with
                | [] => .error errUnexpectedEnd
                | c :: rest5 =>
                  if c = ',' then scanMembers n depth rest5 (acc ++ [(key, v)])
                  else if c = '\x7d' then .ok (.object (acc ++ [(key, v)]), rest5)
                  else .error (errInvalidChar "after object key:value pair")
            else .error (errInvalidChar "after object key")
      else .error (errInvalidChar "looking for beginning of object key string")

end

/-- Parses a whole JSON text: one value, with nothing but whitespace after it. -/
def parseText (data : String) : Except GoError JSON :=
  match scanValue (2 * data.length + 1) 0 data.data with
  | .error e => .error e
  | .ok (v, rest) =>
    if skipSpace rest = [] then .ok v else .error (errInvalidChar "after top-level value")

/-- Parses the bytes of a JSON text (the syntax check that `json.Unmarshal`
makes before it decodes, and the reading of the values). -/
def parseJSON (data : GoString) : Except GoError JSON :=
  parseText (toValidUTF8 data)

/-! ## `encoding/json`: Go types -/

/-- What `encoding/json` does with the values of a Go type `T`: `zero` is the
value of `var v T`, `Marshal v` is `json.Marshal(v)`, and `Unmarshal data v` is
`json.Unmarshal(data, &v)`, giving the value of `v` afterwards and the error
returned. -/
class GoJSON (T : Type) where
  zero : T
  Marshal : T → Except GoError GoString
  Unmarshal : GoString → T → T × Option GoError

/-- A value of the Go type `any`: a value together with its dynamic type. -/
structure GoAny where
  T : Type
  [inst : GoJSON T]
  val : T

/-- The call `json.Marshal(v)` for `v` of type `any`. -/
def GoAny.Marshal (v : GoAny) : Except GoError GoString :=
  v.inst.Marshal v.val

/-- The Go type `string`: a JSON string going out; coming in, a JSON string is
stored, `null` leaves the variable alone, anything else is a type error. -/
instance : GoJSON GoString where
  zero := []
  Marshal s := .ok (utf8Chars (appendString s))
  Unmarshal data v :=
    match parseJSON data with
    | .error e => (v, some e)
    | .ok (.string s) => (utf8 s, none)
    | .ok .null => (v, none)
    | .ok j => (v, some (.UnmarshalTypeError j.kind "string" ""))

/-- A Go channel (`chan int`), as an example of a value that `json.Marshal`
refuses. -/
structure Chan where
  id : Nat
  deriving DecidableEq

instance : GoJSON Chan where
  zero := ⟨0⟩
  Marshal _ := .error (.UnsupportedTypeError "chan int")
  Unmarshal data v :=
    match parseJSON data with
    | .error e => (v, some e)
    | .ok .null => (v, none)
    | .ok j => (v, some (.UnmarshalTypeError j.kind "chan int" ""))

/-! ## The responses of `http.go` -/

def StatusOK : Int := 200

def StatusBadRequest : Int := 400

def StatusNotFound : Int := 404

def StatusInternalServerError : Int := 500

/-- The interface `Response`, as the results of its two methods. -/
structure Response where
  StatusCode : Int
  GetPayload : GoAny

structure BasicResponse where
  Payload : GoAny
  statusCode : Int

def BasicResponse.StatusCode (r : BasicResponse) : Int := r.statusCode

def BasicResponse.GetPayload (r : BasicResponse) : GoAny := r.Payload

def OK (payload : GoAny) : BasicResponse :=
  { statusCode := StatusOK, Payload := payload }

/-- The struct `ErrorResponse`. Only `Message` is exported (JSON name
`message`); `err` and `statusCode` are not. -/
structure ErrorResponse where
  Message : GoString
  err : Option GoError
  statusCode : Int
  deriving DecidableEq

/-- The rune by which `encoding/json` compares an object key with a field name
when they are not equal: ASCII letters in upper case, and the two other runes
that fold to an ASCII letter (U+017F to `S`, U+212A to `K`). Other runes never
fold to an ASCII letter and are kept. -/
def foldRune (c : Char) : Char :=
  if 'a' ≤ c ∧ c ≤ 'z' then Char.ofNat (c.toNat - 32)
  else if c.toNat = 0x17f then 'S'
  else if c.toNat = 0x212a then 'K'
  else c

/-- Whether an object key selects the field whose JSON name is the ASCII name
`name`: exactly, or else up to case. -/
def matchesField (key name : String) : Bool :=
  key = name || key.data.map foldRune = name.data.map foldRune

/-- Stores a JSON value in the field `Message string`. -/
def setMessage (v : JSON) (r : ErrorResponse) : ErrorResponse × Option GoError :=
  match v with
  | .string s => ({ r with Message := utf8 s }, none)
  | .null => (r, none)
  | j => (r, some (.UnmarshalTypeError j.kind "string" "ErrorResponse.message"))

/-- Decodes the members of an object into an `ErrorResponse`, in order: a
member named `message` is stored, every other member is skipped. The first
type error is kept in `e` and decoding goes on. -/
def decodeMembers :
    List (String × JSON) → ErrorResponse → Option GoError → ErrorResponse × Option GoError
  | [], r, e => (r, e)
  | (key, v) :: rest, r, e =>
    if matchesField key "message" then
      decodeMembers rest (setMessage v r).1
        (match e with
          | some e1 => some e1
          | none => (setMessage v r).2)
    else decodeMembers rest r e

/-- Decodes a JSON value into an `ErrorResponse` variable. -/
def ErrorResponse.decode (j : JSON) (r : ErrorResponse) : ErrorResponse × Option GoError :=
  match j with
  | .null => (r, none)
  | .object members => decodeMembers members r none
  | j => (r, some (.UnmarshalTypeError j.kind "http.ErrorResponse" ""))

/-- A value of one of the field types of `ErrorResponse`. -/
inductive GoValue
  | string (s : GoString)
  | int (n : Int)
  | error (e : Option GoError)

/-- A field of a struct value: its Go name, the name in its `json` tag (empty
when it has none) and its value. -/
structure StructField where
  name : String
  tag : String
  value : GoValue

/-- A field is exported when its name begins with an upper-case letter;
`encoding/json` sees no other field. -/
def StructField.exported (f : StructField) : Bool :=
  match f.name.data with
  | c :: _ => c.isUpper
  | [] => false

/-- The key under which an exported field is written. -/
def StructField.jsonName (f : StructField) : String :=
  if f.tag = "" then f.name else f.tag

/-- The JSON text of a field value. A nil error is `null`; an error made by
`errors.New` is a struct without exported fields, `{}` (the errors of
`encoding/json` itself are written so too: their exported fields are not
carried here). -/
def marshalValue : GoValue → List Char
  | .string s => appendString s
  | .int n => (toString n).data
  | .error none => ['n', 'u', 'l', 'l']
  | .error (some _) => ['\x7b', '\x7d']

/-- The members that `json.Marshal` writes for the fields of a struct, in
order: one for each exported field, separated by commas. `first` tells that
no member has been written yet. -/
def marshalFields : List StructField → Bool → List Char
  | [], _ => []
  | f :: fs, first =>
    if f.exported then
      (if first then [] else [',']) ++
        ('"' :: (escapeRunes (f.jsonName.data.map GoRune.rune) ++ ['"', ':'])) ++
        marshalValue f.value ++ marshalFields fs false
    else marshalFields fs first

/-- The JSON text of a struct value. -/
def marshalStruct (fields : List StructField) : List Char :=
  '\x7b' :: (marshalFields fields true ++ ['\x7d'])

/-- The fields of an `ErrorResponse`, as the struct is declared. -/
def ErrorResponse.fields (r : ErrorResponse) : List StructField :=
  [{ name := "Message", tag := "message", value := .string r.Message },
    { name := "err", tag := "", value := .error r.err },
    { name := "statusCode", tag := "", value := .int r.statusCode }]

/-- The encoding of `ErrorResponse`: `Marshal` writes the struct,
`Unmarshal` checks the syntax of the whole text and then decodes it. -/
instance : GoJSON ErrorResponse where
  zero := { Message := [], err := none, statusCode := 0 }
  Marshal r := .ok (utf8Chars (marshalStruct r.fields))
  Unmarshal data r :=
    match parseJSON data with
    | .error e => (r, some e)
    | .ok j => ErrorResponse.decode j r

def ErrorResponse.StatusCode (r : ErrorResponse) : Int := r.statusCode

def ErrorResponse.GetPayload (r : ErrorResponse) : GoAny := { T := ErrorResponse, val := r }

def BadRequest (err : GoError) : ErrorResponse :=
  { statusCode := StatusBadRequest, Message := err.Error, err := some err }

def NotFound (err : GoError) : ErrorResponse :=
  { statusCode := StatusNotFound, Message := err.Error, err := some err }

/-- A `BasicResponse` as a `Response`. -/
def BasicResponse.toResponse (r : BasicResponse) : Response :=
  { StatusCode := r.StatusCode, GetPayload := r.GetPayload }

/-- An `ErrorResponse` as a `Response`. -/
def ErrorResponse.toResponse (r : ErrorResponse) : Response :=
  { StatusCode := r.StatusCode, GetPayload := r.GetPayload }

/-! ## `net/http`: requests and the response sink -/

/-- The type `http.Header`: the values of each key. -/
abbrev Header := List (String × List String)

/-- The method `Header.Get` for a key in canonical form: the first value of the
key, or the empty string. -/
def Header.Get (h : Header) (key : String) : String :=
  match h.lookup key with
  | some (v :: _) => v
  | _ => ""

/-- The method `Header.Del`. -/
def Header.Del (h : Header) (key : String) : Header :=
  h.filter (fun kv => kv.1 ≠ key)

/-- The method `Header.Set` for a key in canonical form: the key has the one
value afterwards. -/
def Header.Set (h : Header) (key value : String) : Header :=
  (key, [value]) :: Header.Del h key

/-- The fields of `http.Request` that the adapter reads. -/
structure Request where
  Header : Header
  RemoteAddr : String

/-- A call made on an `http.ResponseWriter`. -/
inductive Call
  | delHeader (key : String)
  | setHeader (key value : String)
  | writeHeader (code : Int)
  | write (data : GoString)
  deriving DecidableEq

/-- The response sink, an `http.ResponseWriter` as the server of `net/http`
provides it: the header map, the status line and the headers that were sent
with it (none before the first `WriteHeader` or `Write`), the informational
status lines sent before it, the body that the sink has accepted so far, the
calls made on the sink, oldest first, and whether one of them has panicked,
which ends the handler: no later call takes place. -/
structure ResponseWriter where
  header : Header
  status : Option Int
  sentHeader : Header
  informational : List Int
  body : GoString
  calls : List Call
  panicked : Bool
  deriving DecidableEq

/-- A sink on which nothing has been done. -/
def ResponseWriter.fresh : ResponseWriter :=
  { header := [], status := none, sentHeader := [], informational := [], body := [],
    calls := [], panicked := false }

/-- The call `w.Header().Del(key)`. -/
def ResponseWriter.HeaderDel (w : ResponseWriter) (key : String) : ResponseWriter :=
  if w.panicked then w
  else { w with header := Header.Del w.header key, calls := w.calls ++ [.delHeader key] }

/-- The call `w.Header().Set(key, value)`. -/
def ResponseWriter.HeaderSet (w : ResponseWriter) (key value : String) : ResponseWriter :=
  if w.panicked then w
  else
    { w with header := Header.Set w.header key value, calls := w.calls ++ [.setHeader key value] }

/-- The check `checkWriteHeaderCode`: a status code has three digits. -/
def validStatusCode (code : Int) : Bool := 100 ≤ code && code ≤ 999

/-- An informational status, sent on its own before the status of the
response: 1xx other than 101 Switching Protocols. -/
def informationalStatus (code : Int) : Bool := 100 ≤ code && code ≤ 199 && code ≠ 101

/-- The function `bodyAllowedForStatus`: no body goes with 1xx, 204 and 304. -/
def bodyAllowedForStatus (status : Int) : Bool :=
  !(100 ≤ status && status ≤ 199) && status ≠ 204 && status ≠ 304

/-- Sends the status line and the current headers, unless that was done. -/
def ResponseWriter.sendStatus (w : ResponseWriter) (code : Int) : ResponseWriter :=
  match w.status with
  | some _ => w
  | none => { w with status := some code, sentHeader := w.header }

/-- The call `w.WriteHeader(code)`. After the status line was sent the call
does nothing. Otherwise a code outside 100..999 panics, an informational
code is sent and leaves the status line open, and any other code is the
status of the response. -/
def ResponseWriter.WriteHeader (w : ResponseWriter) (code : Int) : ResponseWriter :=
  if w.panicked then w
  else
    match w.status with
    | some _ => { w with calls := w.calls ++ [.writeHeader code] }
    | none =>
      if !validStatusCode code then
        { w with calls := w.calls ++ [.writeHeader code], panicked := true }
      else if informationalStatus code then
        { w with calls := w.calls ++ [.writeHeader code],
                 informational := w.informational ++ [code] }
      else
        { w with calls := w.calls ++ [.writeHeader code], status := some code,
                 sentHeader := w.header }

/-- The call `w.Write(data)`: a status line that was not sent yet goes out as
200 first; the data is accepted when the status allows a body, and refused
with `ErrBodyNotAllowed` otherwise. -/
def ResponseWriter.Write (w : ResponseWriter) (data : GoString) : ResponseWriter :=
  if w.panicked then w
  else
    { w.sendStatus StatusOK with
      body :=
        if bodyAllowedForStatus ((w.sendStatus StatusOK).status.getD StatusOK) then
          w.body ++ data
        else w.body,
      calls := w.calls ++ [.write data] }

/-- The function `http.Error`: plain-text headers, the status line, and the
message as one line (`fmt.Fprintln`). The deletion of `Content-Length` is
there since Go 1.23; on a sink without that header it changes nothing. -/
def Error (w : ResponseWriter) (error : GoString) (code : Int) : ResponseWriter :=
  let w1 := w.HeaderDel "Content-Length"
  let w2 := w1.HeaderSet "Content-Type" "text/plain; charset=utf-8"
  let w3 := w2.HeaderSet "X-Content-Type-Options" "nosniff"
  let w4 := w3.WriteHeader code
  w4.Write (error ++ utf8 "\n")

/-- The body of an `http.Response` as `io.ReadAll` finds it: the bytes it
delivers and the error, if any, that ends the reading. -/
structure Body where
  data : GoString
  readErr : Option GoError
  deriving DecidableEq

/-- The function `io.ReadAll`. -/
def ReadAll (b : Body) : GoString × Option GoError := (b.data, b.readErr)

/-- The fields of `http.Response` that the adapter reads. -/
structure HTTPResponse where
  StatusCode : Int
  Body : Body
  deriving DecidableEq

/-- The response a client receives for what was written to the sink by a
handler that has returned: the status line sent (200 when the handler sent
none) and the body, read without error. -/
def ResponseWriter.Result (w : ResponseWriter) : HTTPResponse :=
  { StatusCode := w.status.getD StatusOK, Body := { data := w.body, readErr := none } }

/-! ## The adapter -/

/-- The type `Handler`; `none` is the nil `Response`. -/
abbrev Handler := Request → Option Response

def writeResponse (w : ResponseWriter) (response : Response) : ResponseWriter :=
  match response.GetPayload.Marshal with
  | .error err => Error w err.Error StatusInternalServerError
  | .ok r =>
    let w1 := w.HeaderSet "Content-Type" "application/json; charset=utf-8"
    let w2 := w1.WriteHeader response.StatusCode
    w2.Write r

def converter (h : Handler) : ResponseWriter → Request → ResponseWriter :=
  fun w r =>
    match h r with
    | none => w
    | some resp => writeResponse w resp

def AddHandler {Mux : Type}
    (mountMethod : Mux → String → (ResponseWriter → Request → ResponseWriter) → Mux)
    (mux : Mux) (pattern : String) (handler : Handler) : Mux :=
  mountMethod mux pattern (converter handler)

def ExtractPayload (T : Type) [GoJSON T] (resp : HTTPResponse) : T × Option GoError :=
  let payload : T := GoJSON.zero
  match ReadAll resp.Body with
  | (_, some err) => (payload, some err)
  | (body, none) =>
    if resp.StatusCode ≠ StatusOK then
      let errRes : ErrorResponse := GoJSON.zero
      match GoJSON.Unmarshal body errRes with
      | (_, some err) => (payload, some err)
      | (errRes, none) => (payload, errRes.err)
    else
      match GoJSON.Unmarshal body payload with
      | (payload, some err) => (payload, some err)
      | (payload, none) => (payload, none)

def ReadUserIP (r : Request) : String :=
  let IPAddress := r.Header.Get "X-Real-Ip"
  let IPAddress := if IPAddress = "" then r.Header.Get "X-Forwarded-For" else IPAddress
  let IPAddress := if IPAddress = "" then r.RemoteAddr else IPAddress
  IPAddress

/-! ## Lemmas on UTF-8 -/

theorem char_valid (c : Char) :
    c.toNat < 0xd800 ∨ (0xdfff < c.toNat ∧ c.toNat < 0x110000) := c.valid

theorem decodeRune_two (n : Nat) (rest : List Nat) (h1 : 0x80 ≤ n) (h2 : n < 0x800) :
    decodeRune (0xc0 + n / 64) ((0x80 + n % 64) :: rest) = (.rune (Char.ofNat n), 2) := by
  have e : (0xc0 + n / 64 - 0xc0) * 64 + (0x80 + n % 64 - 0x80) = n := by omega
  have a1 : ¬ (0xc0 + n / 64 < 0x80) := by omega
  have a2 : ¬ (0xc0 + n / 64 < 0xc2) := by omega
  have a3 : 0xc0 + n / 64 < 0xe0 := by omega
  have a4 : isCont (0x80 + n % 64) = true := by
    simp only [isCont, Bool.and_eq_true, decide_eq_true_eq]; omega
  simp only [decodeRune, a1, a2, a3, a4, if_true, if_false, e]

theorem decodeRune_three (n : Nat) (rest : List Nat) (h1 : 0x800 ≤ n) (h2 : n < 0x10000)
    (hs : n < 0xd800 ∨ 0xdfff < n) :
    decodeRune (0xe0 + n / 4096) ((0x80 + n / 64 % 64) :: (0x80 + n % 64) :: rest) =
      (.rune (Char.ofNat n), 3) := by
  have e : (0xe0 + n / 4096 - 0xe0) * 4096 + (0x80 + n / 64 % 64 - 0x80) * 64 +
      (0x80 + n % 64 - 0x80) = n := by omega
  have a1 : ¬ (0xe0 + n / 4096 < 0x80) := by omega
  have a2 : ¬ (0xe0 + n / 4096 < 0xc2) := by omega
  have a3 : ¬ (0xe0 + n / 4096 < 0xe0) := by omega
  have a4 : 0xe0 + n / 4096 < 0xf0 := by omega
  have a5 : isCont (0x80 + n % 64) = true := by
    simp only [isCont, Bool.and_eq_true, decide_eq_true_eq]; omega
  have a6 : (if 0xe0 + n / 4096 = 0xe0 then 0xa0 else 0x80) ≤ 0x80 + n / 64 % 64 := by
    split_ifs <;> omega
  have a7 : 0x80 + n / 64 % 64 ≤ (if 0xe0 + n / 4096 = 0xed then 0x9f else 0xbf) := by
    split_ifs <;> omega
  simp only [decodeRune, a1, a2, a3, a4, a5, a6, a7, if_true, if_false, e, and_self]

theorem decodeRune_four (n : Nat) (rest : List Nat) (h1 : 0x10000 ≤ n) (h2 : n < 0x110000) :
    decodeRune (0xf0 + n / 262144)
        ((0x80 + n / 4096 % 64) :: (0x80 + n / 64 % 64) :: (0x80 + n % 64) :: rest) =
      (.rune (Char.ofNat n), 4) := by
  have e : (0xf0 + n / 262144 - 0xf0) * 262144 + (0x80 + n / 4096 % 64 - 0x80) * 4096 +
      (0x80 + n / 64 % 64 - 0x80) * 64 + (0x80 + n % 64 - 0x80) = n := by omega
  have a1 : ¬ (0xf0 + n / 262144 < 0x80) := by omega
  have a2 : ¬ (0xf0 + n / 262144 < 0xc2) := by omega
  have a3 : ¬ (0xf0 + n / 262144 < 0xe0) := by omega
  have a4 : ¬ (0xf0 + n / 262144 < 0xf0) := by omega
  have a4b : 0xf0 + n / 262144 < 0xf5 := by omega
  have a5 : isCont (0x80 + n % 64) = true := by
    simp only [isCont, Bool.and_eq_true, decide_eq_true_eq]; omega
  have a5b : isCont (0x80 + n / 64 % 64) = true := by
    simp only [isCont, Bool.and_eq_true, decide_eq_true_eq]; omega
  have a6 : (if 0xf0 + n / 262144 = 0xf0 then 0x90 else 0x80) ≤ 0x80 + n / 4096 % 64 := by
    split_ifs <;> omega
  have a7 : 0x80 + n / 4096 % 64 ≤ (if 0xf0 + n / 262144 = 0xf4 then 0x8f else 0xbf) := by
    split_ifs <;> omega
  simp only [decodeRune, a1, a2, a3, a4, a4b, a5, a5b, a6, a7, if_true, if_false, e, and_self]

theorem decodeRunesFrom_utf8Char (c : Char) (rest : List Nat) :
    decodeRunesFrom 0 (utf8Char c ++ rest) = .rune c :: decodeRunesFrom 0 rest := by
  have hv := char_valid c
  unfold utf8Char
  split_ifs with h1 h2 h3
  · show (decodeRune c.toNat rest).1 ::
      decodeRunesFrom ((decodeRune c.toNat rest).2 - 1) rest = _
    simp only [decodeRune, h1, if_true, Char.ofNat_toNat]
  · show (decodeRune (0xc0 + c.toNat / 64) ((0x80 + c.toNat % 64) :: rest)).1 ::
      decodeRunesFrom ((decodeRune (0xc0 + c.toNat / 64) ((0x80 + c.toNat % 64) :: rest)).2 - 1)
        ((0x80 + c.toNat % 64) :: rest) = _
    rw [decodeRune_two c.toNat rest (by omega) h2, Char.ofNat_toNat]
    rfl
  · show (decodeRune (0xe0 + c.toNat / 4096)
        ((0x80 + c.toNat / 64 % 64) :: (0x80 + c.toNat % 64) :: rest)).1 ::
      decodeRunesFrom ((decodeRune (0xe0 + c.toNat / 4096)
        ((0x80 + c.toNat / 64 % 64) :: (0x80 + c.toNat % 64) :: rest)).2 - 1)
        ((0x80 + c.toNat / 64 % 64) :: (0x80 + c.toNat % 64) :: rest) = _
    rw [decodeRune_three c.toNat rest (by omega) h3 (by omega), Char.ofNat_toNat]
    rfl
  · show (decodeRune (0xf0 + c.toNat / 262144)
        ((0x80 + c.toNat / 4096 % 64) :: (0x80 + c.toNat / 64 % 64) ::
          (0x80 + c.toNat % 64) :: rest)).1 ::
      decodeRunesFrom ((decodeRune (0xf0 + c.toNat / 262144)
        ((0x80 + c.toNat / 4096 % 64) :: (0x80 + c.toNat / 64 % 64) ::
          (0x80 + c.toNat % 64) :: rest)).2 - 1)
        ((0x80 + c.toNat / 4096 % 64) :: (0x80 + c.toNat / 64 % 64) ::
          (0x80 + c.toNat % 64) :: rest) = _
    rw [decodeRune_four c.toNat rest (by omega) (by omega), Char.ofNat_toNat]
    rfl

theorem decodeRunes_utf8Chars (cs : List Char) :
    decodeRunes (utf8Chars cs) = cs.map GoRune.rune := by
  induction cs with
  | nil => rfl
  | cons c cs ih =>
    show decodeRunesFrom 0 (utf8Char c ++ utf8Chars cs) = _
    rw [decodeRunesFrom_utf8Char]
    exact congrArg _ ih


theorem toValidUTF8_utf8Chars (cs : List Char) : toValidUTF8 (utf8Chars cs) = String.mk cs := by
  simp only [toValidUTF8, decodeRunes_utf8Chars, List.map_map]
  congr 1
  induction cs with
  | nil => rfl
  | cons c cs ih => simp only [List.map_cons, ih]; rfl

/-- Text survives its encoding as bytes. -/
theorem toValidUTF8_utf8 (s : String) : toValidUTF8 (utf8 s) = s :=
  toValidUTF8_utf8Chars s.data

/-! ## Lemmas on the JSON text format -/

theorem scanString_quote (rest : List Char) (acc : List Unit16) :
    scanString ('"' :: rest) acc = .ok (String.mk (combineSurrogates none acc), rest) := by
  rw [scanString.eq_def]
  simp

theorem scanString_plain (c : Char) (rest : List Char) (acc : List Unit16)
    (hq : c ≠ '"') (hb : c ≠ '\\') (hn : ¬ c.toNat < 32) :
    scanString (c :: rest) acc = scanString rest (acc ++ [.char c]) := by
  rw [scanString.eq_def]
  simp [hq, hb, hn]

theorem hexVal_hexDigit : ∀ d, d < 16 → hexVal (hexDigit d) = some d := by
  decide

theorem getu4_byte (n : Nat) (h : n < 256) :
    getu4 '0' '0' (hexDigit (n / 16)) (hexDigit (n % 16)) = some n := by
  have h1 := hexVal_hexDigit (n / 16) (by omega)
  have h2 := hexVal_hexDigit (n % 16) (by omega)
  have h0 : hexVal '0' = some 0 := by decide
  simp only [getu4, h0, h1, h2]
  congr 1
  omega

theorem unitOfEscape_low (c : Char) (h : c.toNat < 0xd800) :
    unitOfEscape c.toNat = .char c := by
  have : ¬ (0xd800 ≤ c.toNat ∧ c.toNat < 0xe000) := by omega
  simp [unitOfEscape, this, Char.ofNat_toNat]

theorem scanString_appendChar (c : Char) (rest : List Char) (acc : List Unit16) :
    scanString (appendChar c ++ rest) acc = scanString rest (acc ++ [.char c]) := by
  unfold appendChar
  split_ifs with h1 h2 h3 h4 h5 h6 h7 h8
  · rcases h1 with h | h <;> subst h <;> simp [scanString]
  · subst h2; simp [scanString]
  · subst h3; simp [scanString]
  · subst h4; simp [scanString]
  · subst h5; simp [scanString]
  · subst h6; simp [scanString]
  · have hlt : c.toNat < 256 := by
      rcases h7 with h | h | h | h
      · omega
      · subst h; decide
      · subst h; decide
      · subst h; decide
    simp [scanString, getu4_byte c.toNat hlt, unitOfEscape_low c (by omega)]
  · have hc : c = Char.ofNat 0x2028 ∨ c = Char.ofNat 0x2029 := by
      rcases h8 with h | h
      · left; rw [← h, Char.ofNat_toNat]
      · right; rw [← h, Char.ofNat_toNat]
    rcases hc with h | h <;> subst h <;> simp [scanString] <;> rfl
  · have hq : c ≠ '"' := fun h => h1 (Or.inr h)
    have hb : c ≠ '\\' := fun h => h1 (Or.inl h)
    have hn : ¬ c.toNat < 32 := fun h => h7 (Or.inl h)
    exact scanString_plain c rest acc hq hb hn

theorem scanString_escapeRune (r : GoRune) (rest : List Char) (acc : List Unit16) :
    scanString (escapeRune r ++ rest) acc = scanString rest (acc ++ [.char r.toChar]) := by
  cases r with
  | rune c => exact scanString_appendChar c rest acc
  | invalid b =>
    simp [escapeRune, scanString]
    rfl

theorem combineSurrogates_chars (l : List Char) :
    combineSurrogates none (l.map Unit16.char) = l := by
  induction l with
  | nil => rfl
  | cons c cs ih => simp [combineSurrogates, ih]

theorem scanString_escapeRunes (rs : List GoRune) (rest : List Char) (acc : List Unit16) :
    scanString (escapeRunes rs ++ '"' :: rest) acc =
      .ok (String.mk (combineSurrogates none
        (acc ++ (rs.map GoRune.toChar).map Unit16.char)), rest) := by
  induction rs generalizing acc with
  | nil => simp [escapeRunes, scanString_quote]
  | cons r rs ih =>
    simp only [escapeRunes, List.append_assoc, scanString_escapeRune, ih, List.map_cons]
    simp

/-- Scanning the literal written for the runes `rs` gives their characters. -/
theorem scanString_appendString (rs : List GoRune) (rest : List Char) :
    scanString (escapeRunes rs ++ '"' :: rest) [] =
      .ok (String.mk (rs.map GoRune.toChar), rest) := by
  rw [scanString_escapeRunes, List.nil_append, combineSurrogates_chars]

theorem scanValue_object1 (n : Nat) (k rs : List GoRune) :
    scanValue (n + 3) 0 ('\x7b' :: '"' :: (escapeRunes k ++
        '"' :: ':' :: '"' :: (escapeRunes rs ++ '"' :: ['\x7d']))) =
      .ok (.object [(String.mk (k.map GoRune.toChar),
        .string (String.mk (rs.map GoRune.toChar)))], []) := by
  simp [scanValue, scanMembers, skipSpace, isSpace, scanString_appendString, maxNestingDepth]

/-- The text that `json.Marshal` writes for an error response: the one member
of the exported field. -/
theorem marshalStruct_ErrorResponse (r : ErrorResponse) :
    marshalStruct r.fields =
      '\x7b' :: '"' :: (escapeRunes ("message".data.map GoRune.rune) ++
        '"' :: ':' :: '"' :: (escapeRunes (decodeRunes r.Message) ++ '"' :: ['\x7d'])) := by
  have h1 : StructField.exported
      { name := "Message", tag := "message", value := .string r.Message } = true := rfl
  have h2 : StructField.exported { name := "err", tag := "", value := .error r.err } = false :=
    rfl
  have h3 : StructField.exported
      { name := "statusCode", tag := "", value := .int r.statusCode } = false := rfl
  have h4 : StructField.jsonName
      { name := "Message", tag := "message", value := .string r.Message } = "message" := rfl
  simp only [marshalStruct, ErrorResponse.fields, marshalFields, h1, h2, h3, h4, if_true,
    marshalValue, appendString]
  simp

theorem parseText_message (rs : List GoRune) :
    parseText (String.mk ('\x7b' :: '"' :: (escapeRunes ("message".data.map GoRune.rune) ++
        '"' :: ':' :: '"' :: (escapeRunes rs ++ '"' :: ['\x7d'])))) =
      .ok (.object [("message", .string (String.mk (rs.map GoRune.toChar)))]) := by
  unfold parseText
  obtain ⟨n, hn⟩ : ∃ n, 2 * (String.mk ('\x7b' :: '"' ::
      (escapeRunes ("message".data.map GoRune.rune) ++
        '"' :: ':' :: '"' :: (escapeRunes rs ++ '"' :: ['\x7d'])))).length + 1 = n + 3 :=
    ⟨2 * (String.mk ('\x7b' :: '"' :: (escapeRunes ("message".data.map GoRune.rune) ++
        '"' :: ':' :: '"' :: (escapeRunes rs ++ '"' :: ['\x7d'])))).length - 2, by
      simp only [String.length, List.length_cons]
      omega⟩
  rw [hn, scanValue_object1]
  simp [skipSpace]
  rfl

/-- What the parser reads in the text written for an error response: one
member `message`, whose value is the message with U+FFFD for every byte that
is not valid UTF-8. -/
theorem parseJSON_message (r : ErrorResponse) :
    parseJSON (utf8Chars (marshalStruct r.fields)) =
      .ok (.object [("message", .string (toValidUTF8 r.Message))]) := by
  unfold parseJSON
  rw [toValidUTF8_utf8Chars, marshalStruct_ErrorResponse, parseText_message]
  rfl

/-! ## The scanner never runs out of its bound -/

theorem skipSpace_length (cs : List Char) : (skipSpace cs).length ≤ cs.length := by
  induction cs with
  | nil => simp [skipSpace]
  | cons c cs ih =>
    unfold skipSpace
    split
    · simp only [List.length_cons]; omega
    · exact le_refl _

theorem scanString_length (n : Nat) : ∀ (cs : List Char) (acc : List Unit16) (s : String)
    (rest : List Char), cs.length ≤ n → scanString cs acc = .ok (s, rest) →
    rest.length < cs.length := by
  induction n with
  | zero =>
    intro cs acc s rest hlen h
    have : cs = [] := List.length_eq_zero.mp (by omega)
    subst this
    simp [scanString] at h
  | succ n ih =>
    intro cs acc s rest hlen h
    rw [scanString.eq_def] at h
    split at h
    · simp at h
    · rename_i c tl acc2
      simp only [List.length_cons] at hlen ⊢
      split_ifs at h with h1 h2 h3
      · simp only [Except.ok.injEq, Prod.mk.injEq] at h
        rw [← h.2]; omega
      · split at h
        · simp at h
        · split at h
          · simp at h
          · have := ih _ _ _ _ (by simp only [List.length_cons] at hlen; omega) h
            simp only [List.length_cons]; omega
        · simp at h
        · rename_i e rest2 _ _
          simp only [List.length_cons] at hlen ⊢
          split_ifs at h
          all_goals
            have hrec := ih _ _ _ _ (by omega) h
            omega
      · have := ih _ _ _ _ (by omega) h
        omega

theorem takeDigits_length (cs : List Char) : (takeDigits cs).2.length ≤ cs.length := by
  induction cs with
  | nil => simp [takeDigits]
  | cons c cs ih =>
    unfold takeDigits
    split
    · simp only [List.length_cons]; omega
    · exact le_refl _

theorem scanFrac_length (cs fp rest : List Char) (h : scanFrac cs = .ok (fp, rest)) :
    rest.length ≤ cs.length := by
  unfold scanFrac at h
  split at h
  · rename_i tl
    have hd := takeDigits_length tl
    split at h
    · simp at h
    · simp at h
    · rename_i ds rest2 _ _ heq
      simp only [Except.ok.injEq, Prod.mk.injEq] at h
      rw [heq] at hd
      simp only [List.length_cons]
      rw [← h.2]
      simp only at hd
      omega
  · simp only [Except.ok.injEq, Prod.mk.injEq] at h
    rw [← h.2]

theorem scanExpDigits_length (mark cs ep rest : List Char)
    (h : scanExpDigits mark cs = .ok (ep, rest)) : rest.length ≤ cs.length := by
  unfold scanExpDigits at h
  have hd := takeDigits_length cs
  split at h
  · simp at h
  · simp at h
  · rename_i ds rest2 _ _ heq
    simp only [Except.ok.injEq, Prod.mk.injEq] at h
    rw [heq] at hd
    rw [← h.2]
    exact hd

theorem scanExp_length (cs ep rest : List Char) (h : scanExp cs = .ok (ep, rest)) :
    rest.length ≤ cs.length := by
  unfold scanExp at h
  split at h
  · simp only [Except.ok.injEq, Prod.mk.injEq] at h
    rw [← h.2]
  · rename_i c tl
    split_ifs at h with h1
    · split at h
      · rename_i s rest2
        split_ifs at h with h2
        · have := scanExpDigits_length _ _ _ _ h
          simp only [List.length_cons]; omega
        · have := scanExpDigits_length _ _ _ _ h
          simp only [List.length_cons] at this ⊢; omega
      · simp at h
    · simp only [Except.ok.injEq, Prod.mk.injEq] at h
      rw [← h.2]

theorem scanInt_length (cs ip rest : List Char) (h : scanInt cs = .ok (ip, rest)) :
    rest.length < cs.length := by
  unfold scanInt at h
  split at h
  · simp at h
  · rename_i d tl
    have hd := takeDigits_length tl
    split_ifs at h with h1 h2
    · simp only [Except.ok.injEq, Prod.mk.injEq] at h
      rw [← h.2]; simp
    · simp only [Except.ok.injEq, Prod.mk.injEq] at h
      rw [← h.2]; simp only [List.length_cons]; omega

theorem scanNumber_length (cs : List Char) (lit : String) (rest : List Char)
    (h : scanNumber cs = .ok (lit, rest)) : rest.length < cs.length := by
  unfold scanNumber at h
  simp only at h
  split at h
  · simp at h
  · rename_i ip r1 hint
    split at h
    · simp at h
    · rename_i fp r2 hfrac
      split at h
      · simp at h
      · rename_i ep r3 hexp
        simp only [Except.ok.injEq, Prod.mk.injEq] at h
        have h1 := scanInt_length _ _ _ hint
        have h2 := scanFrac_length _ _ _ hfrac
        have h3 := scanExp_length _ _ _ hexp
        have h0 : (match cs with | '-' :: rest => rest | _ => cs).length ≤ cs.length := by
          split
          · simp
          · exact le_refl _
        rw [← h.2]
        omega

theorem scanLiteral_length (word : List Char) (v : JSON) (name : String) (cs : List Char)
    (w : JSON) (rest : List Char) (h : scanLiteral word v name cs = .ok (w, rest)) :
    rest.length ≤ cs.length := by
  unfold scanLiteral at h
  split_ifs at h
  simp only [Except.ok.injEq, Prod.mk.injEq] at h
  rw [← h.2]
  simp

theorem scan_length (n : Nat) :
    (∀ d cs v rest, scanValue n d cs = .ok (v, rest) → rest.length < cs.length) ∧
    (∀ d cs acc v rest, scanElems n d cs acc = .ok (v, rest) → rest.length < cs.length) ∧
    (∀ d cs acc v rest, scanMembers n d cs acc = .ok (v, rest) → rest.length < cs.length) := by
  induction n with
  | zero =>
    refine ⟨?_, ?_, ?_⟩
    · intro d cs v rest h; simp [scanValue] at h
    · intro d cs acc v rest h; simp [scanElems] at h
    · intro d cs acc v rest h; simp [scanMembers] at h
  | succ n ih =>
    obtain ⟨ihV, ihE, ihM⟩ := ih
    refine ⟨?_, ?_, ?_⟩
    · intro d cs v rest h
      rw [scanValue] at h
      have hsk := skipSpace_length cs
      split at h
      · simp at h
      · rename_i c tl heq
        rw [heq] at hsk
        simp only [List.length_cons] at hsk
        split_ifs at h with h1 h2 h3 h4 h5 h6 h7 h8 h9
        · split at h
          · simp at h
          · rename_i s rest2 hs
            simp only [Except.ok.injEq, Prod.mk.injEq] at h
            have := scanString_length _ _ _ _ _ (le_refl _) hs
            rw [← h.2]; omega
        · split at h
          · rename_i rest2 heq2
            simp only [Except.ok.injEq, Prod.mk.injEq] at h
            have := skipSpace_length tl
            rw [heq2] at this
            simp only [List.length_cons] at this
            rw [← h.2]; omega
          · have := ihM _ _ _ _ _ h
            omega
        · split at h
          · rename_i rest2 heq2
            simp only [Except.ok.injEq, Prod.mk.injEq] at h
            have := skipSpace_length tl
            rw [heq2] at this
            simp only [List.length_cons] at this
            rw [← h.2]; omega
          · have := ihE _ _ _ _ _ h
            omega
        · have := scanLiteral_length _ _ _ _ _ _ h; omega
        · have := scanLiteral_length _ _ _ _ _ _ h; omega
        · have := scanLiteral_length _ _ _ _ _ _ h; omega
        · split at h
          · simp at h
          · rename_i lit rest2 hnum
            simp only [Except.ok.injEq, Prod.mk.injEq] at h
            have := scanNumber_length _ _ _ hnum
            simp only [List.length_cons] at this
            rw [← h.2]; omega
    · intro d cs acc v rest h
      rw [scanElems] at h
      split at h
      · simp at h
      · rename_i w rest1 hv
        have h1 := ihV _ _ _ _ hv
        have hsk := skipSpace_length rest1
        split at h
        · simp at h
        · rename_i c rest2 heq
          rw [heq] at hsk
          simp only [List.length_cons] at hsk
          split_ifs at h with h2 h3
          · have := ihE _ _ _ _ _ h
            omega
          · simp only [Except.ok.injEq, Prod.mk.injEq] at h
            rw [← h.2]; omega
    · intro d cs acc v rest h
      rw [scanMembers] at h
      have hsk := skipSpace_length cs
      split at h
      · simp at h
      · rename_i q tl heq
        rw [heq] at hsk
        simp only [List.length_cons] at hsk
        split_ifs at h with h1
        split at h
        · simp at h
        · rename_i key rest2 hs
          have hs2 := scanString_length _ _ _ _ _ (le_refl _) hs
          have hsk2 := skipSpace_length rest2
          split at h
          · simp at h
          · rename_i colon rest3 heq3
            rw [heq3] at hsk2
            simp only [List.length_cons] at hsk2
            split_ifs at h with h2
            split at h
            · simp at h
            · rename_i w rest4 hv
              have hv2 := ihV _ _ _ _ hv
              have hsk4 := skipSpace_length rest4
              split at h
              · simp at h
              · rename_i c rest5 heq5
                rw [heq5] at hsk4
                simp only [List.length_cons] at hsk4
                split_ifs at h with h3 h4
                · have := ihM _ _ _ _ _ h
                  omega
                · simp only [Except.ok.injEq, Prod.mk.injEq] at h
                  rw [← h.2]; omega

theorem scan_fuel_step (n : Nat) :
    (∀ d cs, 2 * cs.length + 1 ≤ n → scanValue (n + 1) d cs = scanValue n d cs) ∧
    (∀ d cs acc, 2 * cs.length + 2 ≤ n → scanElems (n + 1) d cs acc = scanElems n d cs acc) ∧
    (∀ d cs acc, 2 * cs.length ≤ n →
      scanMembers (n + 1) d cs acc = scanMembers n d cs acc) := by
  induction n with
  | zero =>
    refine ⟨?_, ?_, ?_⟩
    · intro d cs h; omega
    · intro d cs acc h; omega
    · intro d cs acc h
      have : cs = [] := List.length_eq_zero.mp (by omega)
      subst this
      simp [scanMembers, skipSpace]
  | succ n ih =>
    obtain ⟨ihV, ihE, ihM⟩ := ih
    refine ⟨?_, ?_, ?_⟩
    · intro d cs h
      conv_lhs => rw [scanValue]
      conv_rhs => rw [scanValue]
      have hsk := skipSpace_length cs
      cases hs : skipSpace cs with
      | nil => rfl
      | cons c tl =>
        rw [hs] at hsk
        simp only [List.length_cons] at hsk
        simp only
        rw [ihM (d + 1) tl [] (by omega), ihE (d + 1) tl [] (by omega)]
    · intro d cs acc h
      conv_lhs => rw [scanElems]
      conv_rhs => rw [scanElems]
      rw [ihV d cs (by omega)]
      cases hv : scanValue n d cs with
      | error e => rfl
      | ok res =>
        obtain ⟨v, rest⟩ := res
        have h1 := (scan_length n).1 _ _ _ _ hv
        have hsk := skipSpace_length rest
        simp only
        cases hs : skipSpace rest with
        | nil => rfl
        | cons c rest2 =>
          rw [hs] at hsk
          simp only [List.length_cons] at hsk
          simp only
          rw [ihE d rest2 (acc ++ [v]) (by omega)]
    · intro d cs acc h
      conv_lhs => rw [scanMembers]
      conv_rhs => rw [scanMembers]
      have hsk := skipSpace_length cs
      cases hs : skipSpace cs with
      | nil => rfl
      | cons q tl =>
        rw [hs] at hsk
        simp only [List.length_cons] at hsk
        simp only
        cases hk : scanString tl [] with
        | error e => rfl
        | ok res =>
          obtain ⟨key, rest2⟩ := res
          have h2 := scanString_length _ _ _ _ _ (le_refl _) hk
          have hsk2 := skipSpace_length rest2
          simp only
          cases hs2 : skipSpace rest2 with
          | nil => rfl
          | cons colon rest3 =>
            rw [hs2] at hsk2
            simp only [List.length_cons] at hsk2
            simp only
            rw [ihV d rest3 (by omega)]
            cases hv : scanValue n d rest3 with
            | error e => rfl
            | ok res2 =>
              obtain ⟨v, rest4⟩ := res2
              have h4 := (scan_length n).1 _ _ _ _ hv
              have hsk4 := skipSpace_length rest4
              simp only
              cases hs4 : skipSpace rest4 with
              | nil => rfl
              | cons c rest5 =>
                rw [hs4] at hsk4
                simp only [List.length_cons] at hsk4
                simp only
                rw [ihM d rest5 (acc ++ [(key, v)]) (by omega)]

/-- The fuel of `scanValue` does not matter once it is above twice the length
of the input: the scanner never stops for lack of it. -/
theorem scanValue_fuel (n m d : Nat) (cs : List Char) (hn : 2 * cs.length + 1 ≤ n)
    (hm : n ≤ m) : scanValue m d cs = scanValue n d cs := by
  induction m with
  | zero =>
    have : n = 0 := by omega
    subst this; rfl
  | succ m ih =>
    rcases Nat.lt_or_ge m n with hlt | hge
    · have : n = m + 1 := by omega
      subst this; rfl
    · rw [(scan_fuel_step m).1 d cs (by omega)]
      exact ih hge

/-- The parser does not depend on the bound it gives the scanner: any bound
above twice the length of the text gives the same result. -/
theorem parseText_fuel (data : String) (n : Nat) (hn : 2 * data.length + 1 ≤ n) :
    parseText data =
      match scanValue n 0 data.data with
      | .error e => .error e
      | .ok (v, rest) =>
        if skipSpace rest = [] then .ok v else .error (errInvalidChar "after top-level value") := by
  unfold parseText
  rw [scanValue_fuel (2 * data.length + 1) n 0 data.data (le_refl _) hn]

/-- A Go string survives `json.Marshal` and the parser, up to the bytes that
are not valid UTF-8. -/
theorem parseJSON_appendString (s : GoString) :
    parseJSON (utf8Chars (appendString s)) = .ok (.string (toValidUTF8 s)) := by
  unfold parseJSON
  rw [toValidUTF8_utf8Chars]
  unfold parseText
  have hfuel : 2 * (String.mk (appendString s)).length + 1 =
      (2 * (String.mk (appendString s)).length) + 1 := rfl
  rw [hfuel, scanValue]
  simp [appendString, skipSpace, isSpace, scanString_appendString]
  rfl

/-! ## Lemmas on decoding an error response -/

theorem decodeMembers_keeps_error (ms : List (String × JSON)) (r : ErrorResponse) (e : GoError) :
    (decodeMembers ms r (some e)).2 = some e := by
  induction ms generalizing r with
  | nil => rfl
  | cons kv rest ih =>
    obtain ⟨key, v⟩ := kv
    unfold decodeMembers
    split
    · exact ih _
    · exact ih _

theorem decodeMembers_err (ms : List (String × JSON)) (r : ErrorResponse) (e : Option GoError) :
    (decodeMembers ms r e).1.err = r.err := by
  induction ms generalizing r e with
  | nil => rfl
  | cons kv rest ih =>
    obtain ⟨key, v⟩ := kv
    unfold decodeMembers
    split
    · rw [ih]
      cases v <;> rfl
    · exact ih _ _

theorem setMessage_mismatch (v : JSON) (r : ErrorResponse)
    (hnull : v ≠ .null) (hstr : ∀ s, v ≠ .string s) :
    (setMessage v r).2 = some (.UnmarshalTypeError v.kind "string" "ErrorResponse.message") := by
  cases v with
  | null => exact absurd rfl hnull
  | string s => exact absurd rfl (hstr s)
  | bool b => rfl
  | number lit => rfl
  | array elems => rfl
  | object members => rfl

theorem decodeMembers_error_cause (ms : List (String × JSON)) (r : ErrorResponse)
    (e0 : Option GoError) (e : GoError) (h : (decodeMembers ms r e0).2 = some e) :
    e0 = some e ∨ ∃ key v, (key, v) ∈ ms ∧ matchesField key "message" = true ∧
      v ≠ .null ∧ ∀ s, v ≠ .string s := by
  induction ms generalizing r e0 with
  | nil => exact Or.inl h
  | cons kv rest ih =>
    obtain ⟨key, v⟩ := kv
    unfold decodeMembers at h
    split at h
    · rename_i hm
      rcases ih _ _ h with h1 | ⟨k2, v2, hmem, hrest⟩
      · cases e0 with
        | some e1 => exact Or.inl h1
        | none =>
          right
          refine ⟨key, v, List.mem_cons_self _ _, hm, ?_, ?_⟩
          · intro hv; subst hv; simp [setMessage] at h1
          · intro s hv; subst hv; simp [setMessage] at h1
      · exact Or.inr ⟨k2, v2, List.mem_cons_of_mem _ hmem, hrest⟩
    · rcases ih _ _ h with h1 | ⟨k2, v2, hmem, hrest⟩
      · exact Or.inl h1
      · exact Or.inr ⟨k2, v2, List.mem_cons_of_mem _ hmem, hrest⟩

theorem decodeMembers_mismatch_fold (ms : List (String × JSON)) (key : String) (v : JSON)
    (hmem : (key, v) ∈ ms) (hkey : matchesField key "message" = true)
    (hnull : v ≠ .null) (hstr : ∀ s, v ≠ .string s)
    (r : ErrorResponse) (e : Option GoError) :
    ∃ e1, (decodeMembers ms r e).2 = some e1 := by
  induction ms generalizing r e with
  | nil => cases hmem
  | cons kv rest ih =>
    obtain ⟨k2, w⟩ := kv
    cases e with
    | some e0 => exact ⟨e0, decodeMembers_keeps_error _ _ _⟩
    | none =>
      rcases List.mem_cons.mp hmem with h | h
      · have hk : k2 = key := (Prod.mk.inj h).1.symm
        have hw : w = v := (Prod.mk.inj h).2.symm
        subst hk hw
        unfold decodeMembers
        simp only [hkey, if_true, setMessage_mismatch w r hnull hstr]
        exact ⟨_, decodeMembers_keeps_error _ _ _⟩
      · unfold decodeMembers
        split
        · exact ih h _ _
        · exact ih h _ _

/-- Decoding never writes the unexported field `err`. -/
theorem Unmarshal_ErrorResponse_err (data : GoString) (r : ErrorResponse) :
    (GoJSON.Unmarshal data r).1.err = r.err := by
  show (match parseJSON data with
    | .error e => (r, some e)
    | .ok j => ErrorResponse.decode j r).1.err = r.err
  cases parseJSON data with
  | error e => rfl
  | ok j =>
    cases j with
    | object members => exact decodeMembers_err members r none
    | null => rfl
    | bool b => rfl
    | number lit => rfl
    | string s => rfl
    | array elems => rfl

/-- What `ExtractPayload` returns for a status other than 200 and a body read
without error: the zero value of `T`, and the error of decoding the body as an
error response when there is one, otherwise nil. -/
theorem ExtractPayload_non200 (T : Type) [GoJSON T] (resp : HTTPResponse)
    (hstatus : resp.StatusCode ≠ 200) (hread : resp.Body.readErr = none) :
    ExtractPayload T resp =
      (GoJSON.zero, (GoJSON.Unmarshal resp.Body.data (GoJSON.zero : ErrorResponse)).2) := by
  have hs : resp.StatusCode ≠ StatusOK := hstatus
  have herr := Unmarshal_ErrorResponse_err resp.Body.data GoJSON.zero
  simp only [ExtractPayload, ReadAll, hread, hs, if_true, ne_eq, not_false_eq_true]
  generalize GoJSON.Unmarshal resp.Body.data (GoJSON.zero : ErrorResponse) = res at herr
  obtain ⟨r1, e1⟩ := res
  cases e1 with
  | some e => rfl
  | none =>
    simp only at herr
    simp only [herr]
    rfl

/-- Where decoding a body as an error response fails: the text is not valid
JSON, or the value is neither an object nor `null`, or the object has a member
whose key is `message` up to case and whose value is neither a string nor
`null`. -/
theorem Unmarshal_ErrorResponse_fails_iff (data : GoString) :
    (∃ e, (GoJSON.Unmarshal data (GoJSON.zero : ErrorResponse)).2 = some e) ↔
      ((∃ e, parseJSON data = .error e) ∨
        (∃ j, parseJSON data = .ok j ∧ j ≠ .null ∧ ∀ ms, j ≠ .object ms) ∨
        (∃ ms key v, parseJSON data = .ok (.object ms) ∧ (key, v) ∈ ms ∧
          matchesField key "message" = true ∧ v ≠ .null ∧ ∀ s, v ≠ .string s)) := by
  show (∃ e, (match parseJSON data with
    | .error e => ((GoJSON.zero : ErrorResponse), some e)
    | .ok j => ErrorResponse.decode j GoJSON.zero).2 = some e) ↔ _
  cases hp : parseJSON data with
  | error e0 =>
    constructor
    · intro _; exact Or.inl ⟨e0, rfl⟩
    · intro _; exact ⟨e0, rfl⟩
  | ok j =>
    constructor
    · rintro ⟨e, he⟩
      right
      cases j with
      | object members =>
        right
        rcases decodeMembers_error_cause members _ none e he with h | ⟨key, v, hmem, hk, hn, hs⟩
        · cases h
        · exact ⟨members, key, v, rfl, hmem, hk, hn, hs⟩
      | null => cases he
      | bool b => exact Or.inl ⟨_, rfl, by simp, by simp⟩
      | number lit => exact Or.inl ⟨_, rfl, by simp, by simp⟩
      | string s => exact Or.inl ⟨_, rfl, by simp, by simp⟩
      | array elems => exact Or.inl ⟨_, rfl, by simp, by simp⟩
    · rintro (⟨e, he⟩ | ⟨j2, hj, hnull, hobj⟩ | ⟨ms, key, v, hj, hmem, hk, hn, hs⟩)
      · cases he
      · have hj2 : j = j2 := Except.ok.inj hj
        subst hj2
        cases j with
        | null => exact absurd rfl hnull
        | object members => exact absurd rfl (hobj members)
        | bool b => exact ⟨_, rfl⟩
        | number lit => exact ⟨_, rfl⟩
        | string s => exact ⟨_, rfl⟩
        | array elems => exact ⟨_, rfl⟩
      · have hj2 : j = .object ms := Except.ok.inj hj
        subst hj2
        exact decodeMembers_mismatch_fold ms key v hmem hk hn hs GoJSON.zero none

/-! ## Constructors (C7) -/

/-- C7. `OK(P)` has status 200 and payload `P`; `BadRequest(E)` has status 400
and `NotFound(E)` has status 404, and in both the field `Message` is
`E.Error()`. -/
theorem constructors_postconditions (P : GoAny) (E : GoError) :
    (OK P).StatusCode = 200 ∧ (OK P).GetPayload = P ∧
      (BadRequest E).StatusCode = 400 ∧ (NotFound E).StatusCode = 404 ∧
      (BadRequest E).Message = E.Error ∧ (NotFound E).Message = E.Error :=
  ⟨rfl, rfl, rfl, rfl, rfl, rfl⟩

/-! ## The converted handler (C3, C4, C5) -/

/-- C5. When the handler returns nil, the converted handler leaves the sink as
it was; a fresh sink stays without body bytes, status line, headers and
calls. -/
theorem converter_nil_leaves_sink (h : Handler) (r : Request) (w : ResponseWriter)
    (hnil : h r = none) :
    converter h w r = w ∧
      (converter h ResponseWriter.fresh r).body = [] ∧
      (converter h ResponseWriter.fresh r).status = none ∧
      (converter h ResponseWriter.fresh r).header = [] ∧
      (converter h ResponseWriter.fresh r).calls = [] := by
  simp [converter, hnil, ResponseWriter.fresh]

theorem converter_nil_leaves_sink_witness :
    (fun _ => none : Handler) ⟨[], "10.0.0.1:4000"⟩ = none ∧
      converter (fun _ => none) (ResponseWriter.fresh.Write (utf8 "direct"))
        ⟨[], "10.0.0.1:4000"⟩ = ResponseWriter.fresh.Write (utf8 "direct") :=
  ⟨rfl, (converter_nil_leaves_sink (fun _ => none) ⟨[], "10.0.0.1:4000"⟩
    (ResponseWriter.fresh.Write (utf8 "direct")) rfl).1⟩

/-- C3, as the claim states it, fails. A handler may return
`BasicResponse{Payload: "x"}`, whose status code is 0 and whose payload
serializes to `"x"`: `WriteHeader(0)` panics, and the sink is left without
status line and without body. For status 204 the status line is written and
the body is refused, and for the informational status 103 the status of the
response becomes 200. -/
theorem converter_status_counterexample :
    GoAny.Marshal ⟨GoString, utf8 "x"⟩ = .ok (utf8 "\"x\"") ∧
      (converter (fun _ => some (BasicResponse.mk ⟨GoString, utf8 "x"⟩ 0).toResponse)
        ResponseWriter.fresh ⟨[], "10.0.0.1:4000"⟩).panicked = true ∧
      (converter (fun _ => some (BasicResponse.mk ⟨GoString, utf8 "x"⟩ 0).toResponse)
        ResponseWriter.fresh ⟨[], "10.0.0.1:4000"⟩).status ≠ some 0 ∧
      (converter (fun _ => some (BasicResponse.mk ⟨GoString, utf8 "x"⟩ 0).toResponse)
        ResponseWriter.fresh ⟨[], "10.0.0.1:4000"⟩).body ≠ utf8 "\"x\"" ∧
      (converter (fun _ => some (BasicResponse.mk ⟨GoString, utf8 "x"⟩ 204).toResponse)
        ResponseWriter.fresh ⟨[], "10.0.0.1:4000"⟩).body ≠ utf8 "\"x\"" ∧
      (converter (fun _ => some (BasicResponse.mk ⟨GoString, utf8 "x"⟩ 103).toResponse)
        ResponseWriter.fresh ⟨[], "10.0.0.1:4000"⟩).status ≠ some 103 :=
  ⟨rfl, rfl, by decide, by decide, by decide, by decide⟩

/-- C3, amended. When the handler returns a response whose payload serializes
to `body` and whose status code may carry a body (it is in 200..999 and is
neither 204 nor 304), the converted handler makes exactly three calls on a
fresh sink, in this order: it sets `Content-Type` to
`application/json; charset=utf-8`, writes the status line with the status code
of the response, and writes `body`. No call panics, and the sink ends with
that header (also among the headers sent with the status line), that status
and exactly `body` as its body. -/
theorem converter_writes_json (h : Handler) (r : Request) (resp : Response) (body : GoString)
    (hresp : h r = some resp) (hjson : resp.GetPayload.Marshal = .ok body)
    (hcode : 200 ≤ resp.StatusCode ∧ resp.StatusCode ≤ 999 ∧ resp.StatusCode ≠ 204 ∧
      resp.StatusCode ≠ 304) :
    (converter h ResponseWriter.fresh r).calls =
        [.setHeader "Content-Type" "application/json; charset=utf-8",
          .writeHeader resp.StatusCode, .write body] ∧
      (converter h ResponseWriter.fresh r).header.Get "Content-Type" =
        "application/json; charset=utf-8" ∧
      (converter h ResponseWriter.fresh r).sentHeader.Get "Content-Type" =
        "application/json; charset=utf-8" ∧
      (converter h ResponseWriter.fresh r).status = some resp.StatusCode ∧
      (converter h ResponseWriter.fresh r).body = body ∧
      (converter h ResponseWriter.fresh r).panicked = false := by
  obtain ⟨h200, h999, h204, h304⟩ := hcode
  have hv : validStatusCode resp.StatusCode = true := by
    simp only [validStatusCode, Bool.and_eq_true, decide_eq_true_eq]; omega
  have hi : informationalStatus resp.StatusCode = false := by
    simp only [informationalStatus, Bool.and_eq_false_iff, decide_eq_false_iff_not]
    omega
  have hb : bodyAllowedForStatus resp.StatusCode = true := by
    simp only [bodyAllowedForStatus, Bool.and_eq_true, Bool.not_eq_true', ne_eq,
      decide_eq_true_eq, Bool.and_eq_false_iff, decide_eq_false_iff_not]
    refine ⟨⟨?_, h204⟩, h304⟩
    omega
  have hw : (ResponseWriter.fresh.HeaderSet "Content-Type"
      "application/json; charset=utf-8").WriteHeader resp.StatusCode =
      { header := [("Content-Type", ["application/json; charset=utf-8"])],
        status := some resp.StatusCode,
        sentHeader := [("Content-Type", ["application/json; charset=utf-8"])],
        informational := [], body := [],
        calls := [.setHeader "Content-Type" "application/json; charset=utf-8",
          .writeHeader resp.StatusCode],
        panicked := false } := by
    simp [ResponseWriter.WriteHeader, ResponseWriter.HeaderSet, ResponseWriter.fresh, hv, hi,
      Header.Set, Header.Del]
  simp only [converter, hresp, writeResponse, hjson, hw]
  simp [ResponseWriter.Write, ResponseWriter.sendStatus, hb, Header.Get]

theorem converter_writes_json_witness :
    (converter (fun _ => some (NotFound (.errorString (utf8 "no such user"))).toResponse)
        ResponseWriter.fresh ⟨[], "10.0.0.1:4000"⟩).calls =
        [.setHeader "Content-Type" "application/json; charset=utf-8",
          .writeHeader 404, .write (utf8 "\x7b\"message\":\"no such user\"\x7d")] :=
  (converter_writes_json
    (fun _ => some (NotFound (.errorString (utf8 "no such user"))).toResponse)
    ⟨[], "10.0.0.1:4000"⟩ (NotFound (.errorString (utf8 "no such user"))).toResponse
    (utf8 "\x7b\"message\":\"no such user\"\x7d") rfl rfl (by decide)).1

/-- C4, as the claim states it, fails: for a payload that does not serialize
(a channel), the body that `writeResponse` writes is not the message of the
serialization error, it is that message followed by a line feed. -/
theorem writeResponse_error_body_counterexample :
    GoAny.Marshal ⟨Chan, ⟨7⟩⟩ = .error (.UnsupportedTypeError "chan int") ∧
      (writeResponse ResponseWriter.fresh (OK ⟨Chan, ⟨7⟩⟩).toResponse).body
        = utf8 "json: unsupported type: chan int\n" ∧
      (writeResponse ResponseWriter.fresh (OK ⟨Chan, ⟨7⟩⟩).toResponse).body
        ≠ (GoError.UnsupportedTypeError "chan int").Error :=
  ⟨rfl, rfl, by decide⟩

/-- C4, amended. When the payload of a response fails to serialize with error
`e`, `writeResponse` on a fresh sink answers as `http.Error` does: the status
line is 500 whatever the status code of the response is, the body is
`e.Error()` followed by a line feed, and it is sent with the headers
`Content-Type: text/plain; charset=utf-8` and
`X-Content-Type-Options: nosniff`. No call sets the JSON content type, the
only status written is 500, and the only data written is that line, so no
part of the payload is. -/
theorem writeResponse_marshal_error (resp : Response) (e : GoError)
    (hfail : resp.GetPayload.Marshal = .error e) :
    (writeResponse ResponseWriter.fresh resp).status = some 500 ∧
      (writeResponse ResponseWriter.fresh resp).body = e.Error ++ utf8 "\n" ∧
      (writeResponse ResponseWriter.fresh resp).sentHeader.Get "Content-Type" =
        "text/plain; charset=utf-8" ∧
      (writeResponse ResponseWriter.fresh resp).sentHeader.Get "X-Content-Type-Options" =
        "nosniff" ∧
      Call.setHeader "Content-Type" "application/json; charset=utf-8" ∉
        (writeResponse ResponseWriter.fresh resp).calls ∧
      (∀ code, Call.writeHeader code ∈ (writeResponse ResponseWriter.fresh resp).calls →
        code = 500) ∧
      (∀ data, Call.write data ∈ (writeResponse ResponseWriter.fresh resp).calls →
        data = e.Error ++ utf8 "\n") := by
  have hcalls : (writeResponse ResponseWriter.fresh resp).calls =
      [.delHeader "Content-Length",
        .setHeader "Content-Type" "text/plain; charset=utf-8",
        .setHeader "X-Content-Type-Options" "nosniff",
        .writeHeader 500, .write (e.Error ++ utf8 "\n")] := by
    simp only [writeResponse, hfail]
    rfl
  refine ⟨?_, ?_, ?_, ?_, ?_, ?_, ?_⟩
  · simp only [writeResponse, hfail]
    rfl
  · simp only [writeResponse, hfail]
    rfl
  · simp only [writeResponse, hfail]
    rfl
  · simp only [writeResponse, hfail]
    rfl
  · rw [hcalls]
    simp
  · intro code hmem
    rw [hcalls] at hmem
    simp only [List.mem_cons, List.mem_singleton, Call.writeHeader.injEq, reduceCtorEq,
      false_or, or_false, List.not_mem_nil] at hmem
    exact hmem
  · intro data hmem
    rw [hcalls] at hmem
    simp only [List.mem_cons, List.mem_singleton, Call.write.injEq, reduceCtorEq,
      false_or, or_false, List.not_mem_nil] at hmem
    exact hmem

theorem writeResponse_marshal_error_witness :
    (writeResponse ResponseWriter.fresh (OK ⟨Chan, ⟨7⟩⟩).toResponse).status = some 500 ∧
      (writeResponse ResponseWriter.fresh (OK ⟨Chan, ⟨7⟩⟩).toResponse).body =
        (GoError.UnsupportedTypeError "chan int").Error ++ utf8 "\n" ∧
      (writeResponse ResponseWriter.fresh (OK ⟨Chan, ⟨7⟩⟩).toResponse).sentHeader.Get
        "X-Content-Type-Options" = "nosniff" :=
  ⟨(writeResponse_marshal_error (OK ⟨Chan, ⟨7⟩⟩).toResponse
      (.UnsupportedTypeError "chan int") rfl).1,
    (writeResponse_marshal_error (OK ⟨Chan, ⟨7⟩⟩).toResponse
      (.UnsupportedTypeError "chan int") rfl).2.1,
    (writeResponse_marshal_error (OK ⟨Chan, ⟨7⟩⟩).toResponse
      (.UnsupportedTypeError "chan int") rfl).2.2.2.1⟩

/-! ## `ReadUserIP` (C6) -/

/-- A header that is absent has the empty value. -/
theorem Header_Get_absent (h : Header) (key : String) (habs : h.lookup key = none) :
    Header.Get h key = "" := by
  simp [Header.Get, habs]

/-- C6. `ReadUserIP` returns the value of `X-Real-Ip` when it is not empty,
whatever the other two are; otherwise the value of `X-Forwarded-For` when that
is not empty, as it stands; otherwise `RemoteAddr`. A header that is absent has
the empty value. -/
theorem ReadUserIP_priority (r : Request) :
    (r.Header.Get "X-Real-Ip" ≠ "" → ReadUserIP r = r.Header.Get "X-Real-Ip") ∧
      (r.Header.Get "X-Real-Ip" = "" → r.Header.Get "X-Forwarded-For" ≠ "" →
        ReadUserIP r = r.Header.Get "X-Forwarded-For") ∧
      (r.Header.Get "X-Real-Ip" = "" → r.Header.Get "X-Forwarded-For" = "" →
        ReadUserIP r = r.RemoteAddr) := by
  refine ⟨fun h1 => ?_, fun h1 h2 => ?_, fun h1 h2 => ?_⟩
  · simp [ReadUserIP, h1]
  · simp [ReadUserIP, h1, h2]
  · simp [ReadUserIP, h1, h2]

theorem ReadUserIP_priority_witness :
    ReadUserIP ⟨[("X-Forwarded-For", ["5.6.7.8"]), ("X-Real-Ip", ["1.2.3.4"])], "9.9.9.9:80"⟩
        = "1.2.3.4" ∧
      ReadUserIP ⟨[("X-Real-Ip", [""]), ("X-Forwarded-For", ["5.6.7.8, 10.0.0.1"])],
          "9.9.9.9:80"⟩ = "5.6.7.8, 10.0.0.1" ∧
      ReadUserIP ⟨[("Accept", ["*/*"])], "9.9.9.9:80"⟩ = "9.9.9.9:80" :=
  ⟨(ReadUserIP_priority
      ⟨[("X-Forwarded-For", ["5.6.7.8"]), ("X-Real-Ip", ["1.2.3.4"])], "9.9.9.9:80"⟩).1
      (by decide),
    (ReadUserIP_priority
      ⟨[("X-Real-Ip", [""]), ("X-Forwarded-For", ["5.6.7.8, 10.0.0.1"])], "9.9.9.9:80"⟩).2.1
      (by decide) (by decide),
    (ReadUserIP_priority ⟨[("Accept", ["*/*"])], "9.9.9.9:80"⟩).2.2 (by decide) (by decide)⟩

/-! ## `ExtractPayload` on a body that is not JSON (C9) -/

/-- C9. For a response whose status is not 200 and whose body, read to the end
without error, is not valid JSON, `ExtractPayload` returns the zero value of
`T` together with the syntax error of the JSON parser. -/
theorem ExtractPayload_invalid_json (T : Type) [GoJSON T] (resp : HTTPResponse) (e : GoError)
    (hstatus : resp.StatusCode ≠ 200) (hread : resp.Body.readErr = none)
    (hbad : parseJSON resp.Body.data = .error e) :
    ExtractPayload T resp = (GoJSON.zero, some e) := by
  rw [ExtractPayload_non200 T resp hstatus hread]
  simp only [GoJSON.Unmarshal, hbad]

theorem ExtractPayload_invalid_json_witness :
    ExtractPayload GoString ⟨400, ⟨utf8 "<html>Bad Request</html>", none⟩⟩ =
      ([], some (.SyntaxError "invalid character looking for beginning of value")) :=
  ExtractPayload_invalid_json GoString ⟨400, ⟨utf8 "<html>Bad Request</html>", none⟩⟩
    (.SyntaxError "invalid character looking for beginning of value")
    (by decide) rfl rfl

/-! ## The wire format of error responses (C8) -/

/-- What decoding makes of the text written for an error response `r`: the
message with U+FFFD for every byte that is not valid UTF-8, and the zero
values of the cause and of the status code. -/
theorem Unmarshal_Marshal_ErrorResponse (r : ErrorResponse) :
    GoJSON.Unmarshal (utf8Chars (marshalStruct r.fields)) (GoJSON.zero : ErrorResponse) =
      ({ Message := utf8 (toValidUTF8 r.Message), err := none, statusCode := 0 }, none) := by
  simp only [GoJSON.Unmarshal, parseJSON_message]
  rfl

/-- C8, as the claim states it, fails: for the error
`errors.New("\xff\xfe bad utf8")` the two bytes that are not valid UTF-8 are
written as `\ufffd` each, and decoding the serialized form gives a message
that begins with two U+FFFD, which is not `E.Error()`. -/
theorem ErrorResponse_wire_format_counterexample :
    (BadRequest (.errorString ([0xff, 0xfe] ++ utf8 " bad utf8"))).GetPayload.Marshal =
        .ok (utf8 "\x7b\"message\":\"\\ufffd\\ufffd bad utf8\"\x7d") ∧
      (GoJSON.Unmarshal (utf8 "\x7b\"message\":\"\\ufffd\\ufffd bad utf8\"\x7d")
          (GoJSON.zero : ErrorResponse)).1.Message =
        [0xef, 0xbf, 0xbd, 0xef, 0xbf, 0xbd] ++ utf8 " bad utf8" ∧
      (GoJSON.Unmarshal (utf8 "\x7b\"message\":\"\\ufffd\\ufffd bad utf8\"\x7d")
          (GoJSON.zero : ErrorResponse)).1.Message ≠
        (GoError.errorString ([0xff, 0xfe] ++ utf8 " bad utf8")).Error :=
  ⟨rfl, rfl, by decide⟩

/-- C8, amended. The payload of any error response `r` serializes to the JSON
object with the single member `message`, whose value is the string literal of
the field `Message`: the text does not depend on the cause or on the status
code, it parses to the object with that one member, and decoding it as an
error-response object gives the message with U+FFFD for every byte that is
not valid UTF-8, and the zero values of the cause and of the status code. For
an error `E` whose message is valid UTF-8 (the bytes of a text `s`), the
payloads of `BadRequest(E)` and of `NotFound(E)` serialize to that object for
`E.Error()`, the value of its member is `s`, and decoding gives
`Message = E.Error()`. -/
theorem ErrorResponse_wire_format (E : GoError) (r : ErrorResponse) (s : String)
    (hvalid : E.Error = utf8 s) :
    r.GetPayload.Marshal =
        .ok (utf8Chars ("\x7b\"message\":".data ++ appendString r.Message ++ ['\x7d'])) ∧
      parseJSON (utf8Chars ("\x7b\"message\":".data ++ appendString r.Message ++ ['\x7d'])) =
        .ok (.object [("message", .string (toValidUTF8 r.Message))]) ∧
      GoJSON.Unmarshal (utf8Chars ("\x7b\"message\":".data ++ appendString r.Message ++ ['\x7d']))
          (GoJSON.zero : ErrorResponse) =
        ({ Message := utf8 (toValidUTF8 r.Message), err := none, statusCode := 0 }, none) ∧
      (BadRequest E).GetPayload.Marshal =
        .ok (utf8Chars ("\x7b\"message\":".data ++ appendString E.Error ++ ['\x7d'])) ∧
      (NotFound E).GetPayload.Marshal =
        .ok (utf8Chars ("\x7b\"message\":".data ++ appendString E.Error ++ ['\x7d'])) ∧
      parseJSON (utf8Chars ("\x7b\"message\":".data ++ appendString E.Error ++ ['\x7d'])) =
        .ok (.object [("message", .string s)]) ∧
      GoJSON.Unmarshal (utf8Chars ("\x7b\"message\":".data ++ appendString E.Error ++ ['\x7d']))
          (GoJSON.zero : ErrorResponse) =
        ({ Message := E.Error, err := none, statusCode := 0 }, none) := by
  have htext : ∀ r : ErrorResponse, marshalStruct r.fields =
      "\x7b\"message\":".data ++ appendString r.Message ++ ['\x7d'] := by
    intro r
    rw [marshalStruct_ErrorResponse]
    simp [appendString]
    rfl
  have hE : "\x7b\"message\":".data ++ appendString E.Error ++ ['\x7d'] =
      marshalStruct (BadRequest E).fields := (htext (BadRequest E)).symm
  refine ⟨?_, ?_, ?_, ?_, ?_, ?_, ?_⟩
  · show Except.ok (utf8Chars (marshalStruct r.fields)) = _
    rw [htext]
  · rw [← htext, parseJSON_message]
  · rw [← htext, Unmarshal_Marshal_ErrorResponse]
  · show Except.ok (utf8Chars (marshalStruct (BadRequest E).fields)) = _
    rw [htext]; rfl
  · show Except.ok (utf8Chars (marshalStruct (NotFound E).fields)) = _
    rw [htext]; rfl
  · rw [hE, parseJSON_message]
    show Except.ok (JSON.object [("message", JSON.string (toValidUTF8 E.Error))]) = _
    rw [hvalid, toValidUTF8_utf8]
  · rw [hE, Unmarshal_Marshal_ErrorResponse]
    show (({ Message := utf8 (toValidUTF8 E.Error), err := none, statusCode := 0 } :
      ErrorResponse), (none : Option GoError)) = _
    rw [hvalid, toValidUTF8_utf8]

theorem ErrorResponse_wire_format_witness :
    (GoError.errorString (utf8 "a < b")).Error = utf8 "a < b" ∧
      GoJSON.Unmarshal (utf8 "\x7b\"message\":\"a \\u003c b\"\x7d")
          (GoJSON.zero : ErrorResponse) =
        ({ Message := utf8 "a < b", err := none, statusCode := 0 }, none) :=
  ⟨rfl, (ErrorResponse_wire_format (.errorString (utf8 "a < b")) (NotFound (.errorString []))
    "a < b" rfl).2.2.2.2.2.2⟩

/-! ## The error round trip (C1) -/

/-- What the client receives when the converted handler writes `BadRequest(E)`
to a fresh sink: status 400 and the object with the message as body. -/
theorem BadRequest_written (E : GoError) (req : Request) :
    (converter (fun _ => some (BadRequest E).toResponse) ResponseWriter.fresh req).Result =
      ⟨400, ⟨utf8Chars (marshalStruct (BadRequest E).fields), none⟩⟩ :=
  rfl

/-- The error that `ExtractPayload` returns for that response is nil, for
every error `E` and every type `T`. -/
theorem BadRequest_extracted (T : Type) [GoJSON T] (E : GoError) (req : Request) :
    ExtractPayload T
        (converter (fun _ => some (BadRequest E).toResponse) ResponseWriter.fresh req).Result =
      (GoJSON.zero, none) := by
  have h400 : (400 : Int) ≠ 200 := by decide
  rw [BadRequest_written, ExtractPayload_non200 T _ h400 rfl]
  show ((GoJSON.zero : T), (GoJSON.Unmarshal (utf8Chars (marshalStruct (BadRequest E).fields))
    (GoJSON.zero : ErrorResponse)).2) = _
  rw [Unmarshal_Marshal_ErrorResponse]

/-- C1, what the code does. When the converted handler writes
`BadRequest(errors.New("boom"))` to a fresh sink, the client receives status
400 and the body `{"message":"boom"}`, and `ExtractPayload[string]` returns
the empty string with a nil error, not a failure with the message `boom`. It
is so for every error `E` and every `T`: `errRes.err`, which `ExtractPayload`
returns, is not set by `json.Unmarshal`. -/
theorem ExtractPayload_BadRequest_returns_nil :
    (converter (fun _ => some (BadRequest (.errorString (utf8 "boom"))).toResponse)
        ResponseWriter.fresh ⟨[], "10.0.0.1:4000"⟩).Result =
        ⟨400, ⟨utf8 "\x7b\"message\":\"boom\"\x7d", none⟩⟩ ∧
      ExtractPayload GoString ⟨400, ⟨utf8 "\x7b\"message\":\"boom\"\x7d", none⟩⟩ =
        ([], none) ∧
      ∀ (T : Type) [GoJSON T] (E : GoError) (req : Request),
        ExtractPayload T
            (converter (fun _ => some (BadRequest E).toResponse)
              ResponseWriter.fresh req).Result =
          (GoJSON.zero, none) :=
  ⟨rfl, rfl, fun T _ E req => BadRequest_extracted T E req⟩

/-! ## The success round trip (C2) -/

/-- C2, as the claim states it, fails: the error response of
`BadRequest(errors.New("boom"))` is a payload that serializes without error,
and after `writeResponse` and `ExtractPayload[ErrorResponse]` the value
returned has lost the cause and the status code, so it is not equal to the
payload. -/
theorem ExtractPayload_roundtrip_counterexample :
    (BadRequest (.errorString (utf8 "boom"))).GetPayload.Marshal =
        .ok (utf8 "\x7b\"message\":\"boom\"\x7d") ∧
      ExtractPayload ErrorResponse
        (writeResponse ResponseWriter.fresh
          (OK (BadRequest (.errorString (utf8 "boom"))).GetPayload).toResponse).Result =
        ({ Message := utf8 "boom", err := none, statusCode := 0 }, none) ∧
      (ExtractPayload ErrorResponse
        (writeResponse ResponseWriter.fresh
          (OK (BadRequest (.errorString (utf8 "boom"))).GetPayload).toResponse).Result).1 ≠
        BadRequest (.errorString (utf8 "boom")) :=
  ⟨rfl, rfl, by decide⟩

/-- C2, amended. For every payload `P` of type `T` that serializes to a text
which decodes back to `P`, writing `OK(P)` with `writeResponse` to a fresh sink
and passing the response to `ExtractPayload[T]` returns `P` and no error. -/
theorem ExtractPayload_OK_roundtrip (T : Type) [GoJSON T] (P : T) (body : GoString)
    (hjson : GoJSON.Marshal P = .ok body)
    (hback : GoJSON.Unmarshal body (GoJSON.zero : T) = (P, none)) :
    ExtractPayload T (writeResponse ResponseWriter.fresh (OK ⟨T, P⟩).toResponse).Result =
      (P, none) := by
  have hm : (OK ⟨T, P⟩).toResponse.GetPayload.Marshal = .ok body := hjson
  have hres : (writeResponse ResponseWriter.fresh (OK ⟨T, P⟩).toResponse).Result =
      ⟨200, ⟨body, none⟩⟩ := by
    simp only [writeResponse, hm]
    rfl
  rw [hres]
  have hs : ¬ ((200 : Int) ≠ StatusOK) := by decide
  simp only [ExtractPayload, ReadAll, hs, if_false, hback]

theorem ExtractPayload_OK_roundtrip_witness :
    ExtractPayload GoString
      (writeResponse ResponseWriter.fresh (OK ⟨GoString, utf8 "a < b"⟩).toResponse).Result =
      (utf8 "a < b", none) :=
  ExtractPayload_OK_roundtrip GoString (utf8 "a < b") (utf8 "\"a \\u003c b\"") rfl rfl

/-! ## Bodies of another shape (C10) -/

/-- C10, as the claim states it, fails: for status 400 and the body `{}`, and
for status 500 and an object that has other fields only, the body is
well-formed JSON without a `message` string, and `ExtractPayload` returns a nil
error. -/
theorem ExtractPayload_other_shape_counterexample :
    parseJSON (utf8 "\x7b\x7d") = .ok (.object []) ∧
      ExtractPayload GoString ⟨400, ⟨utf8 "\x7b\x7d", none⟩⟩ = ([], none) ∧
      parseJSON (utf8 "\x7b\"code\":17\x7d") = .ok (.object [("code", .number "17")]) ∧
      ExtractPayload GoString ⟨500, ⟨utf8 "\x7b\"code\":17\x7d", none⟩⟩ = ([], none) :=
  ⟨rfl, rfl, rfl, rfl⟩

/-- C10, amended. For a response whose status is not 200 and whose body is
read without error, every failure of decoding the body as an error response
is returned by `ExtractPayload`, with the zero value of `T`. Decoding fails
exactly when the body is not valid JSON, or is a JSON value that is neither
an object nor `null`, or is an object with a member whose key is `message`
up to the case of its letters and whose value is neither a string nor
`null`. -/
theorem ExtractPayload_shape_mismatch (T : Type) [GoJSON T] (resp : HTTPResponse)
    (hstatus : resp.StatusCode ≠ 200) (hread : resp.Body.readErr = none) :
    (∀ e, (GoJSON.Unmarshal resp.Body.data (GoJSON.zero : ErrorResponse)).2 = some e →
        ExtractPayload T resp = (GoJSON.zero, some e)) ∧
      ((∃ e, ExtractPayload T resp = (GoJSON.zero, some e)) ↔
        ((∃ e, parseJSON resp.Body.data = .error e) ∨
          (∃ j, parseJSON resp.Body.data = .ok j ∧ j ≠ .null ∧ ∀ ms, j ≠ .object ms) ∨
          (∃ ms key v, parseJSON resp.Body.data = .ok (.object ms) ∧ (key, v) ∈ ms ∧
            matchesField key "message" = true ∧ v ≠ .null ∧ ∀ s, v ≠ .string s))) := by
  have hnon := ExtractPayload_non200 T resp hstatus hread
  refine ⟨fun e he => by rw [hnon, he], ?_⟩
  rw [← Unmarshal_ErrorResponse_fails_iff, hnon]
  constructor
  · rintro ⟨e, he⟩
    exact ⟨e, (Prod.mk.inj he).2⟩
  · rintro ⟨e, he⟩
    exact ⟨e, by rw [he]⟩

theorem ExtractPayload_shape_mismatch_witness :
    ExtractPayload GoString ⟨400, ⟨utf8 "\x7b\"Message\":5\x7d", none⟩⟩ =
      ([], some (.UnmarshalTypeError "number" "string" "ErrorResponse.message")) :=
  (ExtractPayload_shape_mismatch GoString ⟨400, ⟨utf8 "\x7b\"Message\":5\x7d", none⟩⟩
    (by decide) rfl).1 (.UnmarshalTypeError "number" "string" "ErrorResponse.message") rfl

end HttpAdapter
